import Mathlib

/-!
Shallow embedding of the island terrain generator (heightmap synthesis,
coastal / volcano / hydraulic erosion, fertility-driven plant placement,
grid sampling and the marching-squares seabed skirt) together with proofs
about the claims of the specification.

Numbers are modelled by the real numbers; the 32-bit LCG state is a natural
number.  JavaScript `**` on real arguments is modelled by `Real.rpow`,
`Math.sqrt` by `Real.sqrt`, `Math.cos` by `Real.cos`, `Math.floor` by
`Int.floor` and `Math.ceil` (used only to compute array sizes and loop
counts) by `Nat.ceil`.  Mutation is modelled by explicit state passing:
every pass takes the grid and the generator and returns the updated ones.
-/

noncomputable section

open scoped Classical

namespace Island

/-- Read a list at a (possibly negative) JavaScript style index; reads
outside the array are given the default value 0. -/
def listGetI (l : List ℝ) (i : ℤ) : ℝ :=
  if 0 ≤ i then l.getD i.toNat 0 else 0

/-- The seeded linear congruential generator of the source (class `Random`):
state `n`, `MULTIPLIER = 69069`, `INCREMENT = 1`, `MODULUS = 2^32`. -/
structure Random where
  n : ℕ

/-- One LCG step: `n = (69069 * n + 1) % 2^32`. -/
def Random.next (r : Random) : Random :=
  ⟨(69069 * r.n + 1) % 2 ^ 32⟩

/-- `Random.getFloat`: advance the state and return `n / MODULUS`. -/
def Random.getFloat (r : Random) : ℝ × Random :=
  ((r.next.n : ℝ) / 2 ^ 32, r.next)

/-- Draw `n` successive floats from the generator (array filling loop). -/
def drawFloats : ℕ → Random → List ℝ × Random
  | 0, r => ([], r)
  | n + 1, r =>
    let p := r.getFloat
    let q := drawFloats n p.2
    (p.1 :: q.1, q.2)

/-- The cubic interpolation kernel `CubicNoise.prototype.interpolate`:
with `p = d - c - (a - b)` it returns
`x * (x * (x * p + (a - b - p)) + (c - a)) + b`. -/
def interpolate (a b c d x : ℝ) : ℝ :=
  let p := d - c - (a - b)
  x * (x * (x * p + (a - b - p)) + (c - a)) + b

/-- A cubic noise: the stored `width` together with the flat value array of
`(width + 2) * (height + 2)` uniform samples. -/
structure CubicNoise where
  width : ℕ
  values : List ℝ

/-- The `CubicNoise` constructor: fill `(width + 2) * (height + 2)` cells
from the randomizer. -/
def CubicNoise.make (width height : ℕ) (rng : Random) : CubicNoise × Random :=
  let q := drawFloats ((width + 2) * (height + 2)) rng
  (⟨width, q.1⟩, q.2)

/-- `CubicNoise.prototype.sample`: bicubic interpolation of the value grid,
rescaled by `* 0.5 + 0.25`.  Row `r` reads the four cells
`values[(yi + r) * width + xi + k]`, `k = 0..3`. -/
def CubicNoise.sample (nz : CubicNoise) (x y : ℝ) : ℝ :=
  let xi : ℤ := ⌊x⌋
  let yi : ℤ := ⌊y⌋
  let w : ℤ := nz.width
  let row : ℤ → ℝ := fun r =>
    interpolate (listGetI nz.values ((yi + r) * w + xi))
      (listGetI nz.values ((yi + r) * w + xi + 1))
      (listGetI nz.values ((yi + r) * w + xi + 2))
      (listGetI nz.values ((yi + r) * w + xi + 3)) (x - xi)
  interpolate (row 0) (row 1) (row 2) (row 3) (y - yi) * 0.5 + 0.25

/-- `GridSampler.prototype.sample`: bilinear sampling of a `width × height`
grid at scaled fractional coordinates, with the default value returned for
`x < 0`, `y < 0` or a cell index at or beyond `width - 1` / `height - 1`. -/
def gridSample (width height : ℕ) (scale dflt : ℝ) (vals : List ℝ)
    (x y : ℝ) : ℝ :=
  if x < 0 ∨ y < 0 then dflt else
  let xs := x * scale
  let ys := y * scale
  let xi : ℤ := ⌊xs⌋
  let yi : ℤ := ⌊ys⌋
  if (width : ℤ) - 1 ≤ xi ∨ (height : ℤ) - 1 ≤ yi then dflt else
  let fx := xs - xi
  let fy := ys - yi
  let ylu := listGetI vals (xi + yi * width)
  let yld := listGetI vals (xi + (yi + 1) * width)
  let yru := listGetI vals (xi + 1 + yi * width)
  let yrd := listGetI vals (xi + 1 + (yi + 1) * width)
  let yl := ylu + (yld - ylu) * fy
  let yr := yru + (yrd - yru) * fy
  yl + (yr - yl) * fx

/-- `GridSampler.prototype.change`: bilinear weighted additive deposit of
`delta` on the four cells around the scaled coordinate; a silent no-op for
out-of-range positions.  The four updated indices are pairwise distinct, so
the sequential in-place `+=` of the source equals these four updates. -/
def gridChange (width height : ℕ) (scale : ℝ) (vals : List ℝ)
    (x y delta : ℝ) : List ℝ :=
  if x < 0 ∨ y < 0 then vals else
  let xs := x * scale
  let ys := y * scale
  let xi : ℤ := ⌊xs⌋
  let yi : ℤ := ⌊ys⌋
  if (width : ℤ) - 1 ≤ xi ∨ (height : ℤ) - 1 ≤ yi then vals else
  let fx := xs - xi
  let fy := ys - yi
  let i0 := (xi + yi * width).toNat
  let i1 := (xi + 1 + yi * width).toNat
  let i2 := (xi + (yi + 1) * width).toNat
  let i3 := (xi + 1 + (yi + 1) * width).toNat
  let v0 := vals.set i0 (vals.getD i0 0 + fx * fy * delta)
  let v1 := v0.set i1 (v0.getD i1 0 + (1 - fx) * fy * delta)
  let v2 := v1.set i2 (v1.getD i2 0 + fx * (1 - fy) * delta)
  v2.set i3 (v2.getD i3 0 + (1 - fx) * (1 - fy) * delta)

/-- One cell of `GridSampler.prototype.blur`: the 3 × 3 weighted average
(edges 1/8, corners 1/16, centre 1/4) for interior cells, the old value on
the one-cell border. -/
def blurCell (width : ℕ) (vals : List ℝ) (x y : ℕ) : ℝ :=
  (vals.getD (x - 1 + y * width) 0 + vals.getD (x + (y - 1) * width) 0 +
      vals.getD (x + 1 + y * width) 0 + vals.getD (x + (y + 1) * width) 0) * 0.125 +
    (vals.getD (x - 1 + (y - 1) * width) 0 + vals.getD (x + 1 + (y - 1) * width) 0 +
      vals.getD (x + 1 + (y + 1) * width) 0 + vals.getD (x - 1 + (y + 1) * width) 0) * 0.0625 +
    vals.getD (x + y * width) 0 * 0.25

/-- `GridSampler.prototype.blur`: the new values are computed from the old
array into a scratch buffer and written back to the interior only, so the
pass equals a pure per-cell map that keeps the border. -/
def gridBlur (width height : ℕ) (vals : List ℝ) : List ℝ :=
  (List.range (width * height)).map fun idx =>
    let x := idx % width
    let y := idx / width
    if 1 ≤ x ∧ x + 1 < width ∧ 1 ≤ y ∧ y + 1 < height then blurCell width vals x y
    else vals.getD idx 0

/-- `HeightMapParameters` (upstream defaults `(6, 0.1, 0.5, 1.7, 30, 4.5)`);
`octaves` is the loop count and is kept as a natural number. -/
structure HeightMapParameters where
  octaves : ℕ
  scale : ℝ
  influenceFalloff : ℝ
  scaleFalloff : ℝ
  amplitude : ℝ
  heightPower : ℝ

/-- The upstream default height map parameters. -/
def defaultHeightMapParameters : HeightMapParameters :=
  ⟨6, 0.1, 0.5, 1.7, 30, 4.5⟩

/-- `ErosionHydraulicParameters` (defaults
`(0.4, 0.04, 0.03, 0.15, 0.7, 0.8, 80, 0.04)`). -/
structure ErosionHydraulicParameters where
  dropsPerCell : ℝ
  erosionRate : ℝ
  depositionRate : ℝ
  speed : ℝ
  friction : ℝ
  radius : ℝ
  maxIterations : ℝ
  iterationScale : ℝ

/-- The upstream default hydraulic erosion parameters. -/
def defaultErosionHydraulicParameters : ErosionHydraulicParameters :=
  ⟨0.4, 0.04, 0.03, 0.15, 0.7, 0.8, 80, 0.04⟩

/-- `ErosionCoastalParameters` (defaults `(0.4, 1.2, 0.5, 3)`). -/
structure ErosionCoastalParameters where
  waveHeightMin : ℝ
  waveHeightMax : ℝ
  noiseScale : ℝ
  power : ℝ

/-- The upstream default coastal erosion parameters. -/
def defaultErosionCoastalParameters : ErosionCoastalParameters :=
  ⟨0.4, 1.2, 0.5, 3⟩

/-- `VolcanoesParameters` (defaults `(2.5, 2, 0.2, 0.5, 0.5)`). -/
structure VolcanoesParameters where
  volcanoThreshold : ℝ
  volcanoThresholdAmplitude : ℝ
  volcanoThresholdScale : ℝ
  volcanoMaxDepth : ℝ
  volcanoCraterScale : ℝ

/-- The upstream default volcano parameters. -/
def defaultVolcanoesParameters : VolcanoesParameters :=
  ⟨2.5, 2, 0.2, 0.5, 0.5⟩

/-- `TerrainParameters`: the full configuration bundle.  The only shape the
source implements is the cone (`createShape` falls through to the cone for
every tag), so the shape tag is not carried. -/
structure TerrainParameters where
  width : ℝ
  height : ℝ
  water : ℝ
  shapePower : ℝ
  resolution : ℝ
  heightMapParameters : HeightMapParameters
  erosionHydraulicParameters : ErosionHydraulicParameters
  erosionCoastalParameters : ErosionCoastalParameters
  volcanoesParameters : VolcanoesParameters

/-- `ShapeCone.prototype.sample`:
`cos(π * min(1, 2 * sqrt(dx^2 + dy^2)) ** power) * 0.5 + 0.5` with
`dx = (width/2 - x)/width`, `dy = (height/2 - y)/height`. -/
def shapeConeSample (width height power x y : ℝ) : ℝ :=
  let dx := (width * 0.5 - x) / width
  let dy := (height * 0.5 - y) / height
  Real.cos (Real.pi * min 1 (2 * Real.sqrt (dx * dx + dy * dy)) ^ power) * 0.5 + 0.5

/-- `HeightMap.prototype.makeInfluences`: starting from
`i0 = ((1/falloff - 1) * (1/falloff)^octaves) / ((1/falloff)^octaves - 1) / (1/falloff)`
each stored influence is multiplied by `falloff`, except after the last
octave. -/
def makeInfluencesGo (falloff : ℝ) : ℕ → ℝ → List ℝ
  | 0, _ => []
  | 1, infl => [infl]
  | n + 2, infl => infl :: makeInfluencesGo falloff (n + 1) (infl * falloff)

/-- `HeightMap.prototype.makeInfluences` for a given octave count and
falloff. -/
def makeInfluences (octaves : ℕ) (falloff : ℝ) : List ℝ :=
  let iFalloff := 1 / falloff
  makeInfluencesGo falloff octaves
    ((iFalloff - 1) * iFalloff ^ octaves / (iFalloff ^ octaves - 1) / iFalloff)

/-- `HeightMap.prototype.createNoises`: one octave noise per step, the grid
size scaled by `scaleFalloff` between octaves. -/
def createNoisesGo (xV yV : ℕ) (scaleFalloff : ℝ) :
    ℕ → ℝ → Random → List CubicNoise × Random
  | 0, _, rng => ([], rng)
  | n + 1, scale, rng =>
    let p := CubicNoise.make ⌈scale * xV⌉₊ ⌈scale * yV⌉₊ rng
    let q := createNoisesGo xV yV scaleFalloff n (scale * scaleFalloff) p.2
    (p.1 :: q.1, q.2)

/-- The octave accumulation loop of `HeightMap.prototype.generate`:
`height += noises[k].sample(x * scale, y * scale) * influences[k]` with the
world scale multiplied by `scaleFalloff` between octaves. -/
def octaveSum (scaleFalloff : ℝ) : List (CubicNoise × ℝ) → ℝ → ℝ → ℝ → ℝ
  | [], _, _, _ => 0
  | p :: rest, scale, x, y =>
    p.1.sample (x * scale) (y * scale) * p.2 +
      octaveSum scaleFalloff rest (scale * scaleFalloff) x y

/-- The per-cell body of `HeightMap.prototype.generate`:
`height ** heightPower * amplitude * shape.sample(x * res, y * res)`. -/
def heightCell (p : HeightMapParameters) (pairs : List (CubicNoise × ℝ))
    (shape : ℝ → ℝ → ℝ) (res : ℝ) (x y : ℕ) : ℝ :=
  octaveSum p.scaleFalloff pairs (p.scale * res) x y ^ p.heightPower *
    p.amplitude * shape (x * res) (y * res)

/-- A height map: grid dimensions, the world resolution, the flat value
array in `x + y * xValues` order, and the `maxHeight` recorded during
synthesis. -/
structure HeightMap where
  xValues : ℕ
  yValues : ℕ
  resolution : ℝ
  values : List ℝ
  maxHeight : ℝ

/-- The `HeightMap` constructor: create the octave noises, the influence
list, fill every cell with `heightCell` and record the running maximum
(`maxHeight` starts at 0 and is raised whenever a larger cell appears, so
it equals the left fold of `max` over the cells starting at 0). -/
def HeightMap.make (p : HeightMapParameters) (xV yV : ℕ) (res : ℝ)
    (shape : ℝ → ℝ → ℝ) (rng : Random) : HeightMap × Random :=
  let q := createNoisesGo xV yV p.scaleFalloff p.octaves p.scale rng
  let pairs := q.1.zip (makeInfluences p.octaves p.influenceFalloff)
  let vals := (List.range (xV * yV)).map fun idx =>
    heightCell p pairs shape res (idx % xV) (idx / xV)
  (⟨xV, yV, res, vals, vals.foldl max 0⟩, q.2)

/-- `HeightMap.prototype.sampleNormal` over explicit grid data: four
neighbour samples through the bilinear sampler at scale `1/resolution`, the
exact upstream normal arithmetic, and the `|| 1` guard on a zero length. -/
def sampleNormalRaw (xV yV : ℕ) (res : ℝ) (vals : List ℝ) (x y : ℝ) :
    ℝ × ℝ × ℝ :=
  let dr := -(res + res)
  let l := gridSample xV yV (1 / res) 0 vals (x - res) y
  let t := gridSample xV yV (1 / res) 0 vals x (y - res)
  let r := gridSample xV yV (1 / res) 0 vals (x + res) y
  let b := gridSample xV yV (1 / res) 0 vals x (y + res)
  let nx := dr * (r - l)
  let ny := dr * dr
  let nz := dr * (b - t)
  let len0 := Real.sqrt (nx * nx + ny * ny + nz * nz)
  let len := if len0 = 0 then 1 else len0
  (nx / len, ny / len, nz / len)

/-- `HeightMap.prototype.sampleNormal`. -/
def HeightMap.sampleNormal (hm : HeightMap) (x y : ℝ) : ℝ × ℝ × ℝ :=
  sampleNormalRaw hm.xValues hm.yValues hm.resolution hm.values x y

/-- One cell of `ErosionCoastal.prototype.apply`:
`if height < threshold then height *= (height / threshold) ** power`. -/
def coastalCell (power h threshold : ℝ) : ℝ :=
  if h < threshold then h * (h / threshold) ^ power else h

/-- The per-cell wave threshold of `ErosionCoastal.prototype.apply`:
`waveHeightMin + noise.sample(x * res * noiseScale, y * res * noiseScale) *
(waveHeightMax - waveHeightMin)`. -/
def coastalThreshold (p : ErosionCoastalParameters) (res : ℝ)
    (noise : CubicNoise) (x y : ℕ) : ℝ :=
  p.waveHeightMin +
    noise.sample (x * res * p.noiseScale) (y * res * p.noiseScale) *
      (p.waveHeightMax - p.waveHeightMin)

/-- `ErosionCoastal.prototype.apply`: build the coherence noise, then
rewrite each cell with `coastalCell` and its per-cell threshold. -/
def erosionCoastalApply (p : ErosionCoastalParameters) (res : ℝ)
    (hm : HeightMap) (rng : Random) : HeightMap × Random :=
  let q := CubicNoise.make ⌈(hm.xValues : ℝ) * res * p.noiseScale⌉₊
    ⌈(hm.yValues : ℝ) * res * p.noiseScale⌉₊ rng
  let vals := (List.range (hm.xValues * hm.yValues)).map fun idx =>
    coastalCell p.power (hm.values.getD idx 0)
      (coastalThreshold p res q.1 (idx % hm.xValues) (idx / hm.xValues))
  ({ hm with values := vals }, q.2)

/-- One cell of `Volcanoes.prototype.apply`: where the height exceeds the
perturbed threshold, subtract `(height - threshold) * (1 + craterScale)`. -/
def volcanoCell (craterScale h threshold : ℝ) : ℝ :=
  if h > threshold then h - (h - threshold) * (1 + craterScale) else h

/-- The per-cell volcano threshold:
`(2 * rim.sample(..) - 0.5) * volcanoThresholdAmplitude + volcanoThreshold`. -/
def volcanoCellThreshold (p : VolcanoesParameters) (res : ℝ)
    (rim : CubicNoise) (base : ℝ) (x y : ℕ) : ℝ :=
  (2 * rim.sample (x * res * p.volcanoThresholdScale)
      (y * res * p.volcanoThresholdScale) - 0.5) *
    p.volcanoThresholdAmplitude + base

/-- `Volcanoes.prototype.apply`: the rim noise, the adaptive global
threshold `max(volcanoThreshold, maxHeight - volcanoMaxDepth * (1 / volcanoCraterScale))`,
and the per-cell carve. -/
def volcanoesApply (p : VolcanoesParameters) (hm : HeightMap)
    (rng : Random) : HeightMap × Random :=
  let q := CubicNoise.make ⌈(hm.xValues : ℝ) * hm.resolution * p.volcanoThresholdScale⌉₊
    ⌈(hm.yValues : ℝ) * hm.resolution * p.volcanoThresholdScale⌉₊ rng
  let base := max p.volcanoThreshold
    (hm.maxHeight - p.volcanoMaxDepth * (1 / p.volcanoCraterScale))
  let vals := (List.range (hm.xValues * hm.yValues)).map fun idx =>
    volcanoCell p.volcanoCraterScale (hm.values.getD idx 0)
      (volcanoCellThreshold p hm.resolution q.1 base (idx % hm.xValues) (idx / hm.xValues))
  ({ hm with values := vals }, q.2)

/-- The loop state of `ErosionHydraulic.prototype.trace`: current and
previous droplet position, velocity, carried sediment and the grid being
mutated. -/
structure TraceState where
  x : ℝ
  y : ℝ
  xp : ℝ
  yp : ℝ
  vx : ℝ
  vy : ℝ
  sediment : ℝ
  values : List ℝ

/-- The iteration loop of `ErosionHydraulic.prototype.trace`: stop on flat
ground (`n.y === 1`), otherwise deposit and erode at the previous position
through the bilinear `change`, update the friction-damped velocity, advect
the position and carry the sediment forward.  `i` is the absolute iteration
index, `fuel` the remaining iteration budget. -/
def traceGo (p : ErosionHydraulicParameters) (res : ℝ) (xV yV : ℕ)
    (hmres ox oy : ℝ) : ℕ → ℕ → TraceState → TraceState
  | _, 0, st => st
  | i, fuel + 1, st =>
    let n := sampleNormalRaw xV yV hmres st.values (st.x + ox) (st.y + oy)
    if n.2.1 = 1 then st else
    let deposit := st.sediment * p.depositionRate * n.2.1
    let erosion := p.erosionRate * (1 - n.2.1) * min 1 (i * p.iterationScale)
    let vals := gridChange xV yV (1 / hmres) st.values st.xp st.yp (deposit - erosion)
    let vx := p.friction * st.vx + n.1 * p.speed * res
    let vy := p.friction * st.vy + n.2.2 * p.speed * res
    traceGo p res xV yV hmres ox oy (i + 1) fuel
      ⟨st.x + vx, st.y + vy, st.x, st.y, vx, vy, st.sediment + erosion - deposit, vals⟩

/-- `ErosionHydraulic.prototype.trace`: draw the fixed lateral offset
`(ox, oy)` within `radius * resolution` and run the iteration loop for at
most `maxIterations` steps. -/
def hydraulicTrace (p : ErosionHydraulicParameters) (res x y : ℝ)
    (hm : HeightMap) (rng : Random) : TraceState × Random :=
  let f1 := rng.getFloat
  let ox := (f1.1 * 2 - 1) * p.radius * res
  let f2 := f1.2.getFloat
  let oy := (f2.1 * 2 - 1) * p.radius * res
  (traceGo p res hm.xValues hm.yValues hm.resolution ox oy 0 ⌈p.maxIterations⌉₊
    ⟨x, y, x, y, 0, 0, 0, hm.values⟩, f2.2)

/-- The droplet loop of `ErosionHydraulic.prototype.apply`: each drop
starts at a random position inside the world rectangle (the two start
floats are drawn before the trace draws its offsets). -/
def hydraulicDrops (p : ErosionHydraulicParameters) (res : ℝ) :
    ℕ → HeightMap → Random → HeightMap × Random
  | 0, hm, rng => (hm, rng)
  | n + 1, hm, rng =>
    let f1 := rng.getFloat
    let f2 := f1.2.getFloat
    let t := hydraulicTrace p res (f1.1 * hm.xValues * res) (f2.1 * hm.yValues * res)
      hm f2.2
    hydraulicDrops p res n { hm with values := t.1.values } t.2

/-- `ErosionHydraulic.prototype.apply`:
`dropsPerCell * (xValues - 1) * (yValues - 1)` droplet traces (the loop
`for (i = 0; i < drops; ++i)` runs `⌈drops⌉` times), then one blur pass. -/
def hydraulicApply (p : ErosionHydraulicParameters) (res : ℝ)
    (hm : HeightMap) (rng : Random) : HeightMap × Random :=
  let drops : ℝ := p.dropsPerCell * ((hm.xValues : ℝ) - 1) * ((hm.yValues : ℝ) - 1)
  let q := hydraulicDrops p res ⌈drops⌉₊ hm rng
  ({ q.1 with values := gridBlur q.1.xValues q.1.yValues q.1.values }, q.2)

/-- `Terrain.prototype.createHeightMap`: grid sized
`ceil(width / resolution) + 1` by `ceil(height / resolution) + 1`, shaped
by the cone (`createShape` always returns the cone). -/
def terrainCreateHeightMap (p : TerrainParameters) (rng : Random) :
    HeightMap × Random :=
  HeightMap.make p.heightMapParameters (⌈p.width / p.resolution⌉₊ + 1)
    (⌈p.height / p.resolution⌉₊ + 1) p.resolution
    (shapeConeSample p.width p.height p.shapePower) rng

/-- The full generation sequence of `Landmass._buildTerrain` /
`Terrain`: height map synthesis, then coastal erosion, then volcano
shaping, then hydraulic erosion, all drawing from the single generator. -/
def terrainGenerate (p : TerrainParameters) (rng : Random) :
    HeightMap × Random :=
  let s1 := terrainCreateHeightMap p rng
  let s2 := erosionCoastalApply p.erosionCoastalParameters p.resolution s1.1 s1.2
  let s3 := volcanoesApply p.volcanoesParameters s2.1 s2.2
  hydraulicApply p.erosionHydraulicParameters p.resolution s3.1 s3.2

/-- The pipeline as run by `Landmass._buildTerrain`: a fresh
`new Random(seed)` (the seed is forced into unsigned 32-bit range) drives
the whole generation. -/
def runPipeline (p : TerrainParameters) (seed : ℕ) : HeightMap × Random :=
  terrainGenerate p ⟨seed % 2 ^ 32⟩

/-- Babylon `Scalar.Clamp`: `min(max(value, min), max)` (modelled library
function; defaults are 0 and 1). -/
def scalarClamp (value mn mx : ℝ) : ℝ :=
  min (max value mn) mx

/-- Babylon `Scalar.SmoothStep` (modelled library function): a smoothed
interpolation from `a` to `b` driven by `tx` clamped to `[0, 1]`:
`tween = -2 t^3 + 3 t^2`, result `b * tween + a * (1 - tween)`. -/
def smoothStep (a b tx : ℝ) : ℝ :=
  let t := scalarClamp tx 0 1
  let tween := -2 * (t * t * t) + 3 * (t * t)
  b * tween + a * (1 - tween)

/-- The cheap 2D trig pseudo-noise of the fertility sampler:
`sin(x * 0.11 + z * 0.07) + sin(x * 0.05 - z * 0.13)`. -/
def simpleNoise2D (x z : ℝ) : ℝ :=
  Real.sin (x * 0.11 + z * 0.07) + Real.sin (x * 0.05 - z * 0.13)

/-- The fertility context computed for every placement query. -/
structure FertilityContext where
  altitude : ℝ
  food : ℝ
  moisture : ℝ
  fertility : ℝ

/-- `computeContext` (identical in `growForest` and `addRandomPlant`):
`food = clamp((0.6 + n * 0.4) * smoothStep(0.1, 1.5, 2.2 - altitude), 0, 1)`,
`moisture = (n + 2) / 4`, `fertility` aliasing `food`. -/
def computeContext (x z altitude : ℝ) : FertilityContext :=
  let n := simpleNoise2D x z
  let food := scalarClamp ((0.6 + n * 0.4) * smoothStep 0.1 1.5 (2.2 - altitude)) 0 1
  ⟨altitude, food, (n + 2) / 4, food⟩

/-- The closed set of plant archetypes selected by `addRandomPlant`. -/
inductive PlantKind where
  | palm
  | bush
  | tree
  | flowerCluster
  | flower
deriving DecidableEq

/-- The archetype selection of `addRandomPlant`: a three-tier fertility
classification, each tier walking cumulative thresholds on one uniform
draw `r`. -/
def choosePlant (food r : ℝ) : PlantKind :=
  if food < 0.35 then
    if r < 0.6 then .palm else .bush
  else if food < 0.7 then
    if r < 0.3 then .palm else if r < 0.75 then .tree else .bush
  else
    if r < 0.4 then .tree
    else if r < 0.7 then .palm
    else if r < 0.9 then .flowerCluster
    else .flower

/-- The renderable mesh buffers the seabed step may augment: flat position
triples, RGBA colour quadruples and the triangle index list.  (Normals are
recomputed by the external engine and are not part of the model.) -/
structure Mesh3 where
  positions : List ℝ
  colors : List ℝ
  indices : List ℕ

/-- The zero-crossing interpolation of the marching-squares pass:
`lerp(a, b, fa, fb) = a + (fa / (fa - fb)) * (b - a)`. -/
def msLerp (a b fa fb : ℝ) : ℝ :=
  a + fa / (fa - fb) * (b - a)

/-- The up-to-four edge crossings of one marching-squares cell, gathered in
the order the source checks them: left, right, bottom, top. -/
def msCellCrossings (v00 v10 v11 v01 x0 x1 y0 y1 : ℝ) : List (ℝ × ℝ) :=
  (if (0 < v00) ≠ (0 < v01) then [(x0, msLerp y0 y1 v00 v01)] else []) ++
    (if (0 < v10) ≠ (0 < v11) then [(x1, msLerp y0 y1 v10 v11)] else []) ++
    (if (0 < v00) ≠ (0 < v10) then [(msLerp x0 x1 v00 v10, y0)] else []) ++
    (if (0 < v01) ≠ (0 < v11) then [(msLerp x0 x1 v01 v11, y1)] else [])

/-- One marching-squares cell: classify the corners by sign into the 4-bit
mask, skip uniform cells, otherwise emit the segment from the first found
crossing to the last found crossing (later crossings overwrite the second
point in the source). -/
def msCellSegment (v00 v10 v11 v01 x0 x1 y0 y1 : ℝ) : List (ℝ × ℝ × ℝ × ℝ) :=
  let mask : ℕ := (if 0 < v00 then 1 else 0) + (if 0 < v10 then 2 else 0) +
    (if 0 < v11 then 4 else 0) + (if 0 < v01 then 8 else 0)
  if mask = 0 ∨ mask = 15 then [] else
  match msCellCrossings v00 v10 v11 v01 x0 x1 y0 y1 with
  | [] => []
  | [_] => []
  | p1 :: rest =>
    [(p1.1, p1.2, (rest.getLastD p1).1, (rest.getLastD p1).2)]

/-- The marching-squares pass over all `(W - 1) * (H - 1)` cells of the
signed field, producing raw coastline segments. -/
def msSegments (W H : ℕ) (field : List ℝ) (cell half : ℝ) :
    List (ℝ × ℝ × ℝ × ℝ) :=
  ((List.range ((W - 1) * (H - 1))).map fun idx =>
    let i := idx % (W - 1)
    let j := idx / (W - 1)
    msCellSegment (field.getD (i + j * W) 0) (field.getD (i + 1 + j * W) 0)
      (field.getD (i + 1 + (j + 1) * W) 0) (field.getD (i + (j + 1) * W) 0)
      ((i : ℝ) * cell - half) (((i : ℝ) + 1) * cell - half)
      ((j : ℝ) * cell - half) (((j : ℝ) + 1) * cell - half)).flatten

/-- JavaScript `Math.round`: round half toward positive infinity. -/
def jsRound (x : ℝ) : ℤ :=
  ⌊x + 0.5⌋

/-- An integer reduced to its unsigned 32-bit representative. -/
def toUint32 (z : ℤ) : ℕ :=
  (z % 2 ^ 32).toNat

/-- The endpoint hash `(Math.round(x * 1000) << 16) ^ Math.round(y * 1000)`
of the loop stitcher, modelled on the unsigned 32-bit representatives (key
equality, which is all the map needs, is preserved). -/
def hashPt (x y : ℝ) : ℕ :=
  Nat.xor (toUint32 (jsRound (x * 1000)) * 65536 % 2 ^ 32)
    (toUint32 (jsRound (y * 1000)))

/-- Lookup in the insertion-ordered endpoint map. -/
def amapFind (m : List (ℕ × List (ℝ × ℝ))) (k : ℕ) : Option (List (ℝ × ℝ)) :=
  (m.find? fun e => decide (e.1 = k)).map (·.2)

/-- `if (!hmap.has(k)) hmap.set(k, [])`: create an empty entry at the end
unless the key exists. -/
def amapEnsure (m : List (ℕ × List (ℝ × ℝ))) (k : ℕ) :
    List (ℕ × List (ℝ × ℝ)) :=
  if m.any fun e => decide (e.1 = k) then m else m ++ [(k, [])]

/-- `hmap.get(k).push(v)`: append to the entry list of an existing key. -/
def amapPush (m : List (ℕ × List (ℝ × ℝ))) (k : ℕ) (v : ℝ × ℝ) :
    List (ℕ × List (ℝ × ℝ)) :=
  m.map fun e => if e.1 = k then (e.1, e.2 ++ [v]) else e

/-- Build the endpoint adjacency map: for every segment, ensure entries for
both endpoint hashes and push each endpoint to the partner list of the
other. -/
def buildAdjacency (segs : List (ℝ × ℝ × ℝ × ℝ)) :
    List (ℕ × List (ℝ × ℝ)) :=
  segs.foldl (fun m s =>
    let h1 := hashPt s.1 s.2.1
    let h2 := hashPt s.2.2.1 s.2.2.2
    let m1 := amapEnsure (amapEnsure m h1) h2
    amapPush (amapPush m1 h1 (s.2.2.1, s.2.2.2)) h2 (s.1, s.2.1)) []

/-- The shared-endpoint walk of the loop stitcher: visit the hash, decode
the snapped point, choose the neighbour (preferring the one closer to the
previous point when two are stored), and continue until a visited hash is
reached.  Each step visits a fresh key, so the fuel `m.length + 1` never
runs out. -/
def walkGo (m : List (ℕ × List (ℝ × ℝ))) :
    ℕ → List ℕ → Option (ℝ × ℝ) → ℕ → List (ℝ × ℝ) →
      List (ℝ × ℝ) × List ℕ
  | 0, visited, _, _, loop => (loop, visited)
  | fuel + 1, visited, prev, h, loop =>
    if h ∈ visited then (loop, visited) else
    let kx : ℝ := ((h / 65536 : ℕ) : ℝ) / 1000
    let ky : ℝ := ((h % 65536 : ℕ) : ℝ) / 1000
    match (amapFind m h).getD [] with
    | [] => (loop ++ [(kx, ky)], h :: visited)
    | p0 :: rest =>
      let next := match prev, rest with
        | some pv, p1 :: _ =>
          let d0 := (p0.1 - pv.1) ^ 2 + (p0.2 - pv.2) ^ 2
          let d1 := (p1.1 - pv.1) ^ 2 + (p1.2 - pv.2) ^ 2
          if d1 < d0 then p1 else p0
        | _, _ => p0
      walkGo m fuel (h :: visited) (some (kx, ky)) (hashPt next.1 next.2)
        (loop ++ [(kx, ky)])

/-- The loop extraction: walk from every unvisited nonempty map entry in
insertion order and keep the walks that closed a loop of more than two
points. -/
def extractLoops (m : List (ℕ × List (ℝ × ℝ))) : List (List (ℝ × ℝ)) :=
  (m.foldl (fun acc e =>
    if e.1 ∈ acc.2 then acc else
    if e.2 = [] then acc else
    let w := walkGo m (m.length + 1) acc.2 none e.1 []
    (acc.1 ++ (if 2 < w.1.length then [w.1] else []), w.2)) ([], [])).1

/-- The vertices of the seabed skirt for one loop: `rings + 1 = 9`
concentric rings, each point pushed radially outward by `t^3 * 0.6 * size`
and down by `t^3 * 2 * size` from the waterline. -/
def skirtLoopVertices (size : ℝ) (loop : List (ℝ × ℝ)) :
    List (ℝ × ℝ × ℝ) :=
  let cx := (loop.map Prod.fst).sum / loop.length
  let cy := (loop.map Prod.snd).sum / loop.length
  ((List.range 9).map fun r =>
    let t : ℝ := (r : ℝ) / 8
    let rad := t ^ (3 : ℝ) * (size * 0.6)
    let dy := -(t ^ (3 : ℝ)) * (size * 2)
    loop.map fun pt =>
      let dx := pt.1 - cx
      let dz := pt.2 - cy
      let norm0 := Real.sqrt (dx * dx + dz * dz)
      let norm := if norm0 = 0 then 1 else norm0
      (pt.1 + dx / norm * rad, 0 + dy, pt.2 + dz / norm * rad)).flatten

/-- The triangle indices of the skirt for one loop of length `L` whose
vertices were appended starting at `nbase`: consecutive ring pairs
quadrangulated as `(i0, i2, i1), (i1, i2, i3)`. -/
def skirtLoopIndices (nbase L : ℕ) : List ℕ :=
  ((List.range 8).map fun r =>
    ((List.range L).map fun i =>
      let i0 := nbase + r * L + i
      let i1 := nbase + r * L + (i + 1) % L
      let i2 := nbase + (r + 1) * L + i
      let i3 := nbase + (r + 1) * L + (i + 1) % L
      [i0, i2, i1, i1, i2, i3]).flatten).flatten

/-- `Landmass._conformUnderwaterToCircularBasin`: marching squares on the
field `height - waterline` (waterline 0), loop stitching, and — only when
at least one loop was found — the skirt appended to the mesh buffers.  With
no loops the mesh is returned untouched. -/
def conformUnderwater (size : ℝ) (hm : HeightMap) (mesh : Mesh3) : Mesh3 :=
  let W := hm.xValues
  let H := hm.yValues
  let field := hm.values.map fun h => h - 0
  let cell := size / ((W : ℝ) - 1)
  let half := size * 0.5
  let loops := extractLoops (buildAdjacency (msSegments W H field cell half))
  if loops = [] then mesh else
  loops.foldl (fun acc loop =>
    let vtx := skirtLoopVertices size loop
    let idx := skirtLoopIndices (acc.positions.length / 3) loop.length
    { positions := acc.positions ++ (vtx.map fun v => [v.1, v.2.1, v.2.2]).flatten,
      colors := acc.colors ++ (vtx.map fun _ => [(0.2 : ℝ), 0.2, 0.25, 1]).flatten,
      indices := acc.indices ++ idx }) mesh

/-- The upstream default terrain parameters (`width = height = 25`,
`water = 0.5`, cone with `shapePower = 1.6`, `resolution = 0.1`). -/
def defaultTerrainParameters : TerrainParameters :=
  ⟨25, 25, 0.5, 1.6, 0.1, defaultHeightMapParameters,
    defaultErosionHydraulicParameters, defaultErosionCoastalParameters,
    defaultVolcanoesParameters⟩

/-- A cubic noise of width 4 whose 18 stored values all lie in `[0, 1)`,
arranged so that the bicubic overshoot of the two interpolation layers
compounds at the cell centre. -/
def exNoise : CubicNoise :=
  ⟨4, [0, 0.9, 0.9, 0, 0.9, 0, 0, 0.9, 0.9, 0, 0, 0.9, 0, 0.9, 0.9, 0, 0, 0]⟩

/-- A trivial all-zero cubic noise of width 1 (nine stored values). -/
def zeroNoise : CubicNoise :=
  ⟨1, List.replicate 9 0⟩

/-- A flat 2 × 2 height map whose four cells are exactly zero. -/
def c3Hm : HeightMap :=
  ⟨2, 2, 1, [0, 0, 0, 0], 0⟩

/-- A 2 × 2 height map with one small positive cell. -/
def c3PosHm : HeightMap :=
  ⟨2, 2, 1, [0.1, 0, 0, 0], 1⟩

/-- Terrain parameters exercising the volcano pass with a crater scale
below `-1`: a 1 × 1 world at resolution 1 (a 2 × 2 all-zero grid under the
cone mask), no hydraulic drops, and volcano parameters
`(-100, 2, 0.2, -10, -2)`. -/
def c4Params : TerrainParameters :=
  ⟨1, 1, 0.5, 1.6, 1, defaultHeightMapParameters,
    { defaultErosionHydraulicParameters with dropsPerCell := 0 },
    defaultErosionCoastalParameters, ⟨-100, 2, 0.2, -10, -2⟩⟩

/-- Terrain parameters on the same 1 × 1 world satisfying the sign
constraints of the amended bound (deposition disabled). -/
def c4GoodParams : TerrainParameters :=
  ⟨1, 1, 0.5, 1.6, 1, defaultHeightMapParameters,
    { defaultErosionHydraulicParameters with depositionRate := 0 },
    defaultErosionCoastalParameters, defaultVolcanoesParameters⟩

/-- A 4 × 4 height map at resolution 1 with a single unit bump at cell
`(1, 1)`. -/
def c5Hm : HeightMap :=
  ⟨4, 4, 1, [0, 0, 0, 0, 0, 1, 0, 0, 0, 0, 0, 0, 0, 0, 0, 0], 1⟩

/-- Hydraulic parameters with a non-negative erosion rate and a deposition
rate in `[0, 1]` but a negative `iterationScale`: droplet offsets and
velocity are disabled (`radius = 0`, `speed = 0`) and the trace runs two
iterations. -/
def c5Params : ErosionHydraulicParameters :=
  ⟨0, 1, 0, 0, 0.7, 0, 2, -1⟩

/-- A flat 2 × 2 height map strictly above the waterline. -/
def c9Hm : HeightMap :=
  ⟨2, 2, 1, [1, 1, 1, 1], 1⟩

/-- A small concrete mesh buffer triple. -/
def c9Mesh : Mesh3 :=
  ⟨[0, 0, 0], [1, 1, 1, 1], [0, 0, 0]⟩

/-- Specification-side standard bilinear interpolation (written from the
claim: the four surrounding grid cells of the fractional point, each
weighted by the complementary fractional distances), to be compared with
the sampling code. -/
def bilinearSpec (W : ℕ) (vals : List ℝ) (u v : ℝ) : ℝ :=
  let fx := u - ⌊u⌋
  let fy := v - ⌊v⌋
  listGetI vals (⌊u⌋ + ⌊v⌋ * W) * (1 - fx) * (1 - fy) +
    listGetI vals (⌊u⌋ + 1 + ⌊v⌋ * W) * fx * (1 - fy) +
    listGetI vals (⌊u⌋ + (⌊v⌋ + 1) * W) * (1 - fx) * fy +
    listGetI vals (⌊u⌋ + 1 + (⌊v⌋ + 1) * W) * fx * fy

/-- Every float drawn from the LCG lies in `[0, 1)`. -/
theorem getFloat_mem (r : Random) : 0 ≤ r.getFloat.1 ∧ r.getFloat.1 < 1 := by
  unfold Random.getFloat
  constructor
  · positivity
  · rw [div_lt_one (by positivity)]
    exact_mod_cast Nat.mod_lt _ (by positivity)

/-- Every member of a drawn float list lies in `[0, 1)`. -/
theorem drawFloats_mem (n : ℕ) (r : Random) :
    ∀ v ∈ (drawFloats n r).1, 0 ≤ v ∧ v < 1 := by
  induction n generalizing r with
  | zero => simp [drawFloats]
  | succ n ih =>
    intro v hv
    simp only [drawFloats, List.mem_cons] at hv
    rcases hv with h | h
    · exact h ▸ getFloat_mem r
    · exact ih _ v h

/-- A JavaScript indexed read of a list whose members lie in an interval
containing 0 lies in that interval as well. -/
theorem listGetI_range {l : List ℝ} {lo hi : ℝ}
    (h : ∀ v ∈ l, lo ≤ v ∧ v ≤ hi) (h0 : lo ≤ 0) (h1 : 0 ≤ hi) (i : ℤ) :
    lo ≤ listGetI l i ∧ listGetI l i ≤ hi := by
  unfold listGetI
  split
  · rcases h' : l[i.toNat]? with _ | v
    · rw [List.getD_eq_getElem?_getD, h']
      exact ⟨h0, h1⟩
    · rw [List.getD_eq_getElem?_getD, h']
      exact h v (List.getElem?_mem h')
  · exact ⟨h0, h1⟩

/-- Range of the cubic interpolation kernel: with all four control values
in `[m, M]` and the position in `[0, 1]`, its value lies within the
interval widened by a quarter of its width on each side. -/
theorem interpolate_bounds {m M a b c d x : ℝ}
    (ha1 : m ≤ a) (ha2 : a ≤ M) (hb1 : m ≤ b) (hb2 : b ≤ M)
    (hc1 : m ≤ c) (hc2 : c ≤ M) (hd1 : m ≤ d) (hd2 : d ≤ M)
    (hx0 : 0 ≤ x) (hx1 : x ≤ 1) :
    m - (M - m) / 4 ≤ interpolate a b c d x ∧
      interpolate a b c d x ≤ M + (M - m) / 4 := by
  have hq : 0 ≤ 1 + x - x ^ 2 := by nlinarith
  have hβ : 0 ≤ x ^ 3 - 2 * x ^ 2 + 1 := by
    nlinarith [mul_nonneg (by linarith : (0:ℝ) ≤ 1 - x) hq]
  have hγ : 0 ≤ x * (1 + x - x ^ 2) := mul_nonneg hx0 hq
  have hα : 0 ≤ x * (x - 1) ^ 2 := by positivity
  have hδ : 0 ≤ x ^ 2 * (1 - x) := by
    exact mul_nonneg (sq_nonneg x) (by linarith)
  have hs : 0 ≤ (M - m) * (1 / 4 - x * (1 - x)) := by
    have : x * (1 - x) ≤ 1 / 4 := by nlinarith [sq_nonneg (2 * x - 1)]
    exact mul_nonneg (by linarith) (by linarith)
  unfold interpolate
  constructor
  · nlinarith [mul_nonneg (by linarith : (0:ℝ) ≤ b - m) hβ,
      mul_nonneg (by linarith : (0:ℝ) ≤ c - m) hγ,
      mul_nonneg (by linarith : (0:ℝ) ≤ M - a) hα,
      mul_nonneg (by linarith : (0:ℝ) ≤ M - d) hδ, hs]
  · nlinarith [mul_nonneg (by linarith : (0:ℝ) ≤ M - b) hβ,
      mul_nonneg (by linarith : (0:ℝ) ≤ M - c) hγ,
      mul_nonneg (by linarith : (0:ℝ) ≤ a - m) hα,
      mul_nonneg (by linarith : (0:ℝ) ≤ d - m) hδ, hs]

/-- Range of a cubic noise sample when every stored value lies in `[0, 1]`:
each interpolation layer can overshoot by a quarter of the incoming value
range, so after the `* 0.5 + 0.25` rescale the result lies in
`[-1/16, 17/16]` for every query position. -/
theorem cubicNoise_sample_range (nz : CubicNoise)
    (h : ∀ v ∈ nz.values, 0 ≤ v ∧ v ≤ 1) (x y : ℝ) :
    -(1 / 16) ≤ nz.sample x y ∧ nz.sample x y ≤ 17 / 16 := by
  have hfx0 : (0:ℝ) ≤ x - ⌊x⌋ := sub_nonneg.2 (Int.floor_le x)
  have hfx1 : x - (⌊x⌋ : ℝ) ≤ 1 := by
    have := Int.lt_floor_add_one x
    linarith
  have hfy0 : (0:ℝ) ≤ y - ⌊y⌋ := sub_nonneg.2 (Int.floor_le y)
  have hfy1 : y - (⌊y⌋ : ℝ) ≤ 1 := by
    have := Int.lt_floor_add_one y
    linarith
  have hv : ∀ i : ℤ, 0 ≤ listGetI nz.values i ∧ listGetI nz.values i ≤ 1 :=
    fun i => listGetI_range h le_rfl (by norm_num) i
  have hrow : ∀ k : ℤ,
      -(1/4 : ℝ) ≤ interpolate (listGetI nz.values k) (listGetI nz.values (k + 1))
          (listGetI nz.values (k + 2)) (listGetI nz.values (k + 3)) (x - ⌊x⌋) ∧
        interpolate (listGetI nz.values k) (listGetI nz.values (k + 1))
          (listGetI nz.values (k + 2)) (listGetI nz.values (k + 3)) (x - ⌊x⌋) ≤ 5/4 := by
    intro k
    have hb := interpolate_bounds (m := 0) (M := 1) (hv k).1 (hv k).2
      (hv (k + 1)).1 (hv (k + 1)).2 (hv (k + 2)).1 (hv (k + 2)).2
      (hv (k + 3)).1 (hv (k + 3)).2 hfx0 hfx1
    exact ⟨by linarith [hb.1], by linarith [hb.2]⟩
  have h0 := hrow ((⌊y⌋ + 0) * (nz.width : ℤ) + ⌊x⌋)
  have h1 := hrow ((⌊y⌋ + 1) * (nz.width : ℤ) + ⌊x⌋)
  have h2 := hrow ((⌊y⌋ + 2) * (nz.width : ℤ) + ⌊x⌋)
  have h3 := hrow ((⌊y⌋ + 3) * (nz.width : ℤ) + ⌊x⌋)
  have hout := interpolate_bounds (m := -(1/4)) (M := 5/4)
    h0.1 h0.2 h1.1 h1.2 h2.1 h2.2 h3.1 h3.2 hfy0 hfy1
  have hs : nz.sample x y =
      interpolate
        (interpolate (listGetI nz.values ((⌊y⌋ + 0) * (nz.width : ℤ) + ⌊x⌋))
          (listGetI nz.values ((⌊y⌋ + 0) * (nz.width : ℤ) + ⌊x⌋ + 1))
          (listGetI nz.values ((⌊y⌋ + 0) * (nz.width : ℤ) + ⌊x⌋ + 2))
          (listGetI nz.values ((⌊y⌋ + 0) * (nz.width : ℤ) + ⌊x⌋ + 3)) (x - ⌊x⌋))
        (interpolate (listGetI nz.values ((⌊y⌋ + 1) * (nz.width : ℤ) + ⌊x⌋))
          (listGetI nz.values ((⌊y⌋ + 1) * (nz.width : ℤ) + ⌊x⌋ + 1))
          (listGetI nz.values ((⌊y⌋ + 1) * (nz.width : ℤ) + ⌊x⌋ + 2))
          (listGetI nz.values ((⌊y⌋ + 1) * (nz.width : ℤ) + ⌊x⌋ + 3)) (x - ⌊x⌋))
        (interpolate (listGetI nz.values ((⌊y⌋ + 2) * (nz.width : ℤ) + ⌊x⌋))
          (listGetI nz.values ((⌊y⌋ + 2) * (nz.width : ℤ) + ⌊x⌋ + 1))
          (listGetI nz.values ((⌊y⌋ + 2) * (nz.width : ℤ) + ⌊x⌋ + 2))
          (listGetI nz.values ((⌊y⌋ + 2) * (nz.width : ℤ) + ⌊x⌋ + 3)) (x - ⌊x⌋))
        (interpolate (listGetI nz.values ((⌊y⌋ + 3) * (nz.width : ℤ) + ⌊x⌋))
          (listGetI nz.values ((⌊y⌋ + 3) * (nz.width : ℤ) + ⌊x⌋ + 1))
          (listGetI nz.values ((⌊y⌋ + 3) * (nz.width : ℤ) + ⌊x⌋ + 2))
          (listGetI nz.values ((⌊y⌋ + 3) * (nz.width : ℤ) + ⌊x⌋ + 3)) (x - ⌊x⌋))
        (y - ⌊y⌋) * 0.5 + 0.25 := rfl
  rw [hs]
  exact ⟨by linarith [hout.1], by linarith [hout.2]⟩

/-- Every stored value of a cubic noise built from the LCG lies in
`[0, 1]`. -/
theorem make_values_mem (w h : ℕ) (rng : Random) :
    ∀ v ∈ (CubicNoise.make w h rng).1.values, 0 ≤ v ∧ v ≤ 1 := by
  intro v hv
  have := drawFloats_mem ((w + 2) * (h + 2)) rng v hv
  exact ⟨this.1, this.2.le⟩

/-- Range of a sample of a cubic noise built from the LCG. -/
theorem make_sample_range (w h : ℕ) (rng : Random) (x y : ℝ) :
    -(1 / 16) ≤ (CubicNoise.make w h rng).1.sample x y ∧
      (CubicNoise.make w h rng).1.sample x y ≤ 17 / 16 :=
  cubicNoise_sample_range _ (make_values_mem w h rng) x y

/-- C10, counterexample: `exNoise` stores only values in `[0, 1)`, yet its
in-range sample at `(0.5, 0.5)` evaluates to `-1/32`, which is below the
claimed lower bound `0.125` and not strictly positive — the two
interpolation layers compound their overshoot beyond `[0.125, 0.875]`. -/
theorem cubicNoise_range_cex :
    (∀ v ∈ exNoise.values, 0 ≤ v ∧ v < 1) ∧
      exNoise.sample 0.5 0.5 = -(1 / 32) ∧
      ¬ (0.125 ≤ exNoise.sample 0.5 0.5 ∧ exNoise.sample 0.5 0.5 ≤ 0.875) ∧
      ¬ (0 < exNoise.sample 0.5 0.5) := by
  have hmem : ∀ v ∈ exNoise.values, 0 ≤ v ∧ v < 1 := by
    intro v hv
    fin_cases hv <;> norm_num
  have hfl : ⌊(0.5 : ℝ)⌋ = 0 := by norm_num
  have he : exNoise.sample 0.5 0.5 = -(1 / 32) := by
    simp only [CubicNoise.sample, interpolate, listGetI, exNoise, hfl]
    simp
    norm_num
  refine ⟨hmem, he, ?_, ?_⟩ <;> rw [he] <;> norm_num

/-- C10, amended: for stored values in `[0, 1]` the sample of a
`CubicNoise` lies in `[-1/16, 17/16]`; it is not necessarily positive, so
the octave sum of `HeightMap.generate` can be negative and the `**
heightPower` step can receive a negative base. -/
theorem cubicNoise_range_amended (nz : CubicNoise)
    (h : ∀ v ∈ nz.values, 0 ≤ v ∧ v ≤ 1) (x y : ℝ) :
    -(1 / 16) ≤ nz.sample x y ∧ nz.sample x y ≤ 17 / 16 :=
  cubicNoise_sample_range nz h x y

/-- Witness for the amended C10 bound at the all-zero noise. -/
theorem cubicNoise_range_amended_witness :
    (∀ v ∈ zeroNoise.values, 0 ≤ v ∧ v ≤ 1) ∧
      (-(1 / 16) ≤ zeroNoise.sample 0 0 ∧ zeroNoise.sample 0 0 ≤ 17 / 16) := by
  have hv : ∀ v ∈ zeroNoise.values, 0 ≤ v ∧ v ≤ 1 := by
    intro v hv
    have hv0 : v = 0 := by simpa [zeroNoise, List.mem_replicate] using hv
    simp [hv0]
  exact ⟨hv, cubicNoise_range_amended zeroNoise hv 0 0⟩

/-- The sum of the influence loop starting from `i` is a geometric
series. -/
theorem makeInfluencesGo_sum (f : ℝ) : ∀ (n : ℕ) (i : ℝ),
    (makeInfluencesGo f n i).sum = i * ∑ k ∈ Finset.range n, f ^ k
  | 0, i => by simp [makeInfluencesGo]
  | 1, i => by simp [makeInfluencesGo]
  | n + 2, i => by
    have ih := makeInfluencesGo_sum f (n + 1) (i * f)
    rw [makeInfluencesGo, List.sum_cons, ih, geom_sum_succ (x := f) (n := n + 1)]
    ring

/-- C2: for `octaves ≥ 1` and `falloff ∈ (0, 1)`, the per-octave influence
weights computed by `HeightMap.makeInfluences` sum to exactly 1. -/
theorem makeInfluences_sum_one (octaves : ℕ) (falloff : ℝ)
    (ho : 1 ≤ octaves) (h0 : 0 < falloff) (h1 : falloff < 1) :
    (makeInfluences octaves falloff).sum = 1 := by
  have hf0 : falloff ≠ 0 := ne_of_gt h0
  have hf1 : falloff - 1 ≠ 0 := by intro hh; linarith
  have hflt : falloff ^ octaves < 1 :=
    pow_lt_one₀ (le_of_lt h0) h1 (by omega)
  have hfn : falloff ^ octaves ≠ 0 := pow_ne_zero _ hf0
  unfold makeInfluences
  rw [makeInfluencesGo_sum, geom_sum_eq (by intro hh; rw [hh] at h1; linarith)]
  have h2 : (1 / falloff) ^ octaves = 1 / falloff ^ octaves := by
    rw [div_pow, one_pow]
  rw [h2]
  generalize falloff ^ octaves = u at hflt hfn ⊢
  have hu1 : u ≠ 1 := by intro hh; rw [hh] at hflt; exact lt_irrefl _ hflt
  have h3 : 1 / u - 1 ≠ 0 := by
    rw [ne_eq, sub_eq_zero, div_eq_one_iff_eq hfn]
    exact fun hh => hu1 hh.symm
  have h4 : 1 - u ≠ 0 := fun hh => hu1 (by linarith [sub_eq_zero.1 hh])
  have h5 : u - 1 ≠ 0 := sub_ne_zero.2 hu1
  have h6 : 1 - falloff ≠ 0 := fun hh => hf1 (by linarith [sub_eq_zero.1 hh])
  have hD : -(falloff * u) + falloff * u ^ 2 + (falloff ^ 2 * u - falloff ^ 2 * u ^ 2) ≠ 0 := by
    have e : -(falloff * u) + falloff * u ^ 2 + (falloff ^ 2 * u - falloff ^ 2 * u ^ 2) =
        falloff * u * ((u - 1) * (1 - falloff)) := by ring
    rw [e]
    exact mul_ne_zero (mul_ne_zero hf0 hfn) (mul_ne_zero h5 h6)
  field_simp
  ring

/-- Witness for C2 at three octaves with falloff one half. -/
theorem makeInfluences_sum_one_witness :
    (1 ≤ 3 ∧ (0 : ℝ) < 0.5 ∧ (0.5 : ℝ) < 1) ∧
      (makeInfluences 3 0.5).sum = 1 :=
  ⟨⟨by norm_num, by norm_num, by norm_num⟩,
    makeInfluences_sum_one 3 0.5 (by norm_num) (by norm_num) (by norm_num)⟩

/-- Reading a mapped range list at an in-range index gives the mapped
value. -/
theorem getD_range_map (n : ℕ) (f : ℕ → ℝ) (i : ℕ) (hi : i < n) :
    ((List.range n).map f).getD i 0 = f i := by
  rw [List.getD_eq_getElem?_getD, List.getElem?_map, List.getElem?_range hi]
  rfl

/-- C3, counterexample: in the coastal pass over an all-zero grid the cell
0 has a positive threshold and a pre-pass height strictly below it, yet its
absolute value after the pass is not strictly smaller — the power-law
multiply fixes a zero cell at zero. -/
theorem coastal_strict_shrink_cex :
    0 < coastalThreshold defaultErosionCoastalParameters 1
        (CubicNoise.make 1 1 ⟨0⟩).1 0 0 ∧
      c3Hm.values.getD 0 0 < coastalThreshold defaultErosionCoastalParameters 1
        (CubicNoise.make 1 1 ⟨0⟩).1 0 0 ∧
      ¬ (|(erosionCoastalApply defaultErosionCoastalParameters 1 c3Hm
            ⟨0⟩).1.values.getD 0 0| < |c3Hm.values.getD 0 0|) := by
  have hrange := make_sample_range 1 1 ⟨0⟩ ((0 : ℕ) * 1 * (0.5 : ℝ))
    ((0 : ℕ) * 1 * (0.5 : ℝ))
  have ht : 0 < coastalThreshold defaultErosionCoastalParameters 1
      (CubicNoise.make 1 1 ⟨0⟩).1 0 0 := by
    unfold coastalThreshold defaultErosionCoastalParameters
    simp only
    nlinarith [hrange.1, hrange.2]
  have hv0 : c3Hm.values.getD 0 0 = 0 := by simp [c3Hm]
  have hceil : ⌈(c3Hm.xValues : ℝ) * 1 * (0.5 : ℝ)⌉₊ = 1 := by
    rw [show (c3Hm.xValues : ℝ) = 2 from by norm_num [c3Hm]]
    norm_num
  have happly : (erosionCoastalApply defaultErosionCoastalParameters 1 c3Hm
      ⟨0⟩).1.values.getD 0 0 = 0 := by
    unfold erosionCoastalApply
    simp only [hceil]
    rw [show c3Hm.xValues * c3Hm.yValues = 4 from by norm_num [c3Hm]]
    rw [getD_range_map 4 _ 0 (by norm_num)]
    rw [show (0 : ℕ) % c3Hm.xValues = 0 from by norm_num [c3Hm],
      show (0 : ℕ) / c3Hm.xValues = 0 from by norm_num [c3Hm], hv0]
    unfold coastalCell
    split
    · exact zero_mul _
    · rfl
  refine ⟨ht, by rw [hv0]; exact ht, ?_⟩
  rw [happly, hv0]
  simp

/-- C3, amended: a cell that is strictly positive and strictly below its
per-cell coastal threshold strictly shrinks in absolute value under the
coastal pass, provided the compression power is positive. -/
theorem coastal_shrink_amended (p : ErosionCoastalParameters) (res : ℝ)
    (hm : HeightMap) (rng : Random) (i : ℕ) (hi : i < hm.xValues * hm.yValues)
    (hpow : 0 < p.power)
    (hpos : 0 < hm.values.getD i 0)
    (hlt : hm.values.getD i 0 <
      coastalThreshold p res
        (CubicNoise.make ⌈(hm.xValues : ℝ) * res * p.noiseScale⌉₊
          ⌈(hm.yValues : ℝ) * res * p.noiseScale⌉₊ rng).1
        (i % hm.xValues) (i / hm.xValues)) :
    |(erosionCoastalApply p res hm rng).1.values.getD i 0| <
      |hm.values.getD i 0| := by
  set h := hm.values.getD i 0 with hh
  set t := coastalThreshold p res
    (CubicNoise.make ⌈(hm.xValues : ℝ) * res * p.noiseScale⌉₊
      ⌈(hm.yValues : ℝ) * res * p.noiseScale⌉₊ rng).1
    (i % hm.xValues) (i / hm.xValues) with hht
  have ht0 : 0 < t := hpos.trans hlt
  have hr0 : 0 < h / t := div_pos hpos ht0
  have hr1 : h / t < 1 := (div_lt_one ht0).2 hlt
  have hres : (erosionCoastalApply p res hm rng).1.values.getD i 0 =
      h * (h / t) ^ p.power := by
    unfold erosionCoastalApply
    simp only
    rw [getD_range_map _ _ i hi]
    unfold coastalCell
    rw [if_pos hlt]
  rw [hres]
  have hp1 : (h / t) ^ p.power < 1 :=
    Real.rpow_lt_one (le_of_lt hr0) hr1 hpow
  have hp0 : 0 < (h / t) ^ p.power := Real.rpow_pos_of_pos hr0 _
  rw [abs_of_pos (mul_pos hpos hp0), abs_of_pos hpos]
  nlinarith

/-- Witness for the amended C3 on a grid with one small positive cell. -/
theorem coastal_shrink_amended_witness :
    |(erosionCoastalApply defaultErosionCoastalParameters 1 c3PosHm
        ⟨0⟩).1.values.getD 0 0| < |c3PosHm.values.getD 0 0| := by
  have hrange := make_sample_range ⌈(c3PosHm.xValues : ℝ) * 1 *
      defaultErosionCoastalParameters.noiseScale⌉₊
    ⌈(c3PosHm.yValues : ℝ) * 1 * defaultErosionCoastalParameters.noiseScale⌉₊
    ⟨0⟩ (((0 : ℕ) % c3PosHm.xValues : ℕ) * 1 *
      defaultErosionCoastalParameters.noiseScale)
    (((0 : ℕ) / c3PosHm.xValues : ℕ) * 1 *
      defaultErosionCoastalParameters.noiseScale)
  exact coastal_shrink_amended defaultErosionCoastalParameters 1 c3PosHm ⟨0⟩ 0
    (by norm_num [c3PosHm]) (by norm_num [defaultErosionCoastalParameters])
    (by norm_num [c3PosHm])
    (by
      unfold coastalThreshold
      rw [show c3PosHm.values.getD 0 0 = 0.1 from by norm_num [c3PosHm]]
      norm_num [defaultErosionCoastalParameters] at hrange ⊢
      nlinarith [hrange.1, hrange.2])

/-- An in-range default read of a list is a member of the list. -/
theorem getD_mem_of_lt (l : List ℝ) (k : ℕ) (hk : k < l.length) :
    l.getD k 0 ∈ l := by
  rw [List.getD_eq_getElem?_getD, List.getElem?_eq_getElem hk]
  exact List.getElem_mem hk

/-- The marching-squares pass finds no segment when the whole field is
strictly positive or strictly negative: every cell mask is 15 or 0. -/
theorem msSegments_nil (W H : ℕ) (field : List ℝ) (cell half : ℝ)
    (hlen : W * H ≤ field.length)
    (h : (∀ v ∈ field, 0 < v) ∨ (∀ v ∈ field, v < 0)) :
    msSegments W H field cell half = [] := by
  unfold msSegments
  rw [List.flatten_eq_nil_iff]
  intro l hl
  rw [List.mem_map] at hl
  obtain ⟨idx, hidx, rfl⟩ := hl
  rw [List.mem_range] at hidx
  have hW1 : 0 < W - 1 := by
    rcases Nat.eq_zero_or_pos (W - 1) with h0 | h1
    · rw [h0, Nat.zero_mul] at hidx; exact absurd hidx (Nat.not_lt_zero idx)
    · exact h1
  have hi : idx % (W - 1) < W - 1 := Nat.mod_lt idx hW1
  have hj : idx / (W - 1) < H - 1 := by
    rw [Nat.div_lt_iff_lt_mul hW1]
    calc idx < (W - 1) * (H - 1) := hidx
    _ = (H - 1) * (W - 1) := Nat.mul_comm _ _
  generalize idx % (W - 1) = i at hi ⊢
  generalize idx / (W - 1) = j at hj ⊢
  have hcell : ∀ a b : ℕ, a + 1 ≤ W → b + 1 ≤ H → a + b * W < W * H := by
    intro a b ha hb
    calc a + b * W < W + b * W := by omega
    _ = (b + 1) * W := by ring
    _ ≤ H * W := Nat.mul_le_mul_right W hb
    _ = W * H := Nat.mul_comm _ _
  have hk1 : i + j * W < W * H := hcell i j (by omega) (by omega)
  have hk2 : i + 1 + j * W < W * H := hcell (i + 1) j (by omega) (by omega)
  have hk3 : i + (j + 1) * W < W * H := hcell i (j + 1) (by omega) (by omega)
  have hk4 : i + 1 + (j + 1) * W < W * H :=
    hcell (i + 1) (j + 1) (by omega) (by omega)
  have hg : ∀ k, k < W * H → field.getD k 0 ∈ field := fun k hk =>
    getD_mem_of_lt field k (lt_of_lt_of_le hk hlen)
  rcases h with hp | hn
  · have hv1 := hp _ (hg _ hk1)
    have hv2 := hp _ (hg _ hk2)
    have hv3 := hp _ (hg _ hk3)
    have hv4 := hp _ (hg _ hk4)
    unfold msCellSegment
    dsimp only
    rw [if_pos hv1, if_pos hv2, if_pos hv3, if_pos hv4]
    rw [if_pos (Or.inr (by norm_num))]
  · have hv1 := hn _ (hg _ hk1)
    have hv2 := hn _ (hg _ hk2)
    have hv3 := hn _ (hg _ hk3)
    have hv4 := hn _ (hg _ hk4)
    unfold msCellSegment
    dsimp only
    rw [if_neg (not_lt.2 (le_of_lt hv1)), if_neg (not_lt.2 (le_of_lt hv2)),
      if_neg (not_lt.2 (le_of_lt hv3)), if_neg (not_lt.2 (le_of_lt hv4))]
    rw [if_pos (Or.inl (by norm_num))]

/-- C9: when every grid value is strictly above the waterline or every grid
value is strictly below it, the underwater-skirt step finds no coastline
loop and returns the mesh unchanged — no position, colour or index buffer
is touched (and, being a total function, it raises no error). -/
theorem conform_no_loops (size : ℝ) (hm : HeightMap) (mesh : Mesh3)
    (hlen : hm.values.length = hm.xValues * hm.yValues)
    (h : (∀ v ∈ hm.values, 0 < v) ∨ (∀ v ∈ hm.values, v < 0)) :
    conformUnderwater size hm mesh = mesh := by
  have hfield : (∀ v ∈ hm.values.map fun hh => hh - 0, 0 < v) ∨
      (∀ v ∈ hm.values.map fun hh => hh - 0, v < 0) := by
    rcases h with hp | hn
    · left
      intro v hv
      rw [List.mem_map] at hv
      obtain ⟨w, hw, rfl⟩ := hv
      have := hp w hw
      linarith
    · right
      intro v hv
      rw [List.mem_map] at hv
      obtain ⟨w, hw, rfl⟩ := hv
      have := hn w hw
      linarith
  have hsegs := msSegments_nil hm.xValues hm.yValues
    (hm.values.map fun hh => hh - 0) (size / ((hm.xValues : ℝ) - 1))
    (size * 0.5) (by rw [List.length_map, hlen]) hfield
  unfold conformUnderwater
  simp only [hsegs]
  rw [if_pos (show extractLoops (buildAdjacency []) = [] from rfl)]

/-- Witness for C9 on a flat grid strictly above the waterline. -/
theorem conform_no_loops_witness :
    conformUnderwater 1 c9Hm c9Mesh = c9Mesh :=
  conform_no_loops 1 c9Hm c9Mesh (by norm_num [c9Hm])
    (Or.inl (by intro v hv; fin_cases hv <;> norm_num))

/-- C1: the seeded LCG threaded through the passes is the sole source of
randomness of the terrain pipeline, so two runs from equal seeds produce
identical elevation grids, cell by cell. -/
theorem terrainGenerate_deterministic (p : TerrainParameters) (s1 s2 : ℕ)
    (hseed : s1 = s2) :
    ∀ i : ℕ, (runPipeline p s1).1.values.getD i 0 =
      (runPipeline p s2).1.values.getD i 0 := by
  subst hseed
  intro i
  rfl

/-- Witness for C1 at the default parameters and seed 1337. -/
theorem terrainGenerate_deterministic_witness :
    1337 = 1337 ∧
      ∀ i : ℕ, (runPipeline defaultTerrainParameters 1337).1.values.getD i 0 =
        (runPipeline defaultTerrainParameters 1337).1.values.getD i 0 :=
  ⟨rfl, terrainGenerate_deterministic defaultTerrainParameters 1337 1337 rfl⟩

/-- The vertical component of the sampled surface normal always lies in
`[0, 1]`: it is `dr^2 / len` with `len` at least `dr^2` (or the `|| 1`
guard when the length vanishes). -/
theorem sampleNormal_y_mem (xV yV : ℕ) (res : ℝ) (vals : List ℝ) (x y : ℝ) :
    0 ≤ (sampleNormalRaw xV yV res vals x y).2.1 ∧
      (sampleNormalRaw xV yV res vals x y).2.1 ≤ 1 := by
  unfold sampleNormalRaw
  dsimp only
  set dr : ℝ := -(res + res) with hdr
  set nx : ℝ := dr * (gridSample xV yV (1 / res) 0 vals (x + res) y -
    gridSample xV yV (1 / res) 0 vals (x - res) y) with hnx
  set nz : ℝ := dr * (gridSample xV yV (1 / res) 0 vals x (y + res) -
    gridSample xV yV (1 / res) 0 vals x (y - res)) with hnz
  set S : ℝ := nx * nx + dr * dr * (dr * dr) + nz * nz with hS
  have hSnn : 0 ≤ S := by nlinarith [sq_nonneg nx, sq_nonneg nz, sq_nonneg (dr * dr)]
  have hSge : (dr * dr) * (dr * dr) ≤ S := by nlinarith [sq_nonneg nx, sq_nonneg nz]
  by_cases hlen : Real.sqrt S = 0
  · rw [if_pos hlen]
    have hS0 : S ≤ 0 := Real.sqrt_eq_zero'.1 hlen
    have hdr0 : dr * dr = 0 := by nlinarith [sq_nonneg (dr * dr)]
    rw [hdr0]
    norm_num
  · rw [if_neg hlen]
    have hpos : 0 < Real.sqrt S := lt_of_le_of_ne (Real.sqrt_nonneg S)
      (fun hh => hlen hh.symm)
    constructor
    · exact div_nonneg (mul_self_nonneg dr) (le_of_lt hpos)
    · rw [div_le_one hpos]
      calc dr * dr = Real.sqrt ((dr * dr) * (dr * dr)) := by
            rw [Real.sqrt_mul_self (mul_self_nonneg dr)]
      _ ≤ Real.sqrt S := Real.sqrt_le_sqrt hSge

/-- Sediment invariant of the droplet trace: with a non-negative erosion
rate, a deposition rate in `[0, 1]` and a non-negative iteration scale,
the carried sediment stays non-negative and grows by at most
`erosionRate` per iteration. -/
theorem traceGo_sediment_bounds (p : ErosionHydraulicParameters) (res : ℝ)
    (xV yV : ℕ) (hmres ox oy : ℝ)
    (hrate : 0 ≤ p.erosionRate) (hdep0 : 0 ≤ p.depositionRate)
    (hdep1 : p.depositionRate ≤ 1) (hit : 0 ≤ p.iterationScale) :
    ∀ (fuel i : ℕ) (st : TraceState), 0 ≤ st.sediment →
      st.sediment ≤ i * p.erosionRate →
      0 ≤ (traceGo p res xV yV hmres ox oy i fuel st).sediment ∧
        (traceGo p res xV yV hmres ox oy i fuel st).sediment ≤
          (i + fuel : ℕ) * p.erosionRate := by
  intro fuel
  induction fuel with
  | zero =>
    intro i st h0 h1
    exact ⟨h0, by simpa [traceGo] using h1⟩
  | succ fuel ih =>
    intro i st h0 h1
    rw [traceGo]
    dsimp only
    set n := sampleNormalRaw xV yV hmres st.values (st.x + ox) (st.y + oy) with hn
    by_cases hny : n.2.1 = 1
    · rw [if_pos hny]
      refine ⟨h0, le_trans h1 ?_⟩
      have : (i : ℝ) ≤ ((i + (fuel + 1) : ℕ) : ℝ) := by push_cast; linarith
      exact mul_le_mul_of_nonneg_right this hrate
    · rw [if_neg hny]
      have hyb := sampleNormal_y_mem xV yV hmres st.values (st.x + ox) (st.y + oy)
      rw [← hn] at hyb
      have hmin0 : 0 ≤ min 1 ((i : ℝ) * p.iterationScale) :=
        le_min zero_le_one (mul_nonneg (Nat.cast_nonneg i) hit)
      have hmin1 : min 1 ((i : ℝ) * p.iterationScale) ≤ 1 := min_le_left _ _
      have hero0 : 0 ≤ p.erosionRate * (1 - n.2.1) * min 1 ((i : ℝ) * p.iterationScale) :=
        mul_nonneg (mul_nonneg hrate (by linarith [hyb.2])) hmin0
      have hero1 : p.erosionRate * (1 - n.2.1) * min 1 ((i : ℝ) * p.iterationScale) ≤
          p.erosionRate := by
        calc p.erosionRate * (1 - n.2.1) * min 1 ((i : ℝ) * p.iterationScale) ≤
            p.erosionRate * (1 - n.2.1) * 1 :=
              mul_le_mul_of_nonneg_left hmin1 (mul_nonneg hrate (by linarith [hyb.2]))
        _ = p.erosionRate * (1 - n.2.1) := mul_one _
        _ ≤ p.erosionRate * 1 :=
              mul_le_mul_of_nonneg_left (by linarith [hyb.1]) hrate
        _ = p.erosionRate := mul_one _
      have hdepo0 : 0 ≤ st.sediment * p.depositionRate * n.2.1 :=
        mul_nonneg (mul_nonneg h0 hdep0) hyb.1
      have hdepo1 : st.sediment * p.depositionRate * n.2.1 ≤ st.sediment := by
        calc st.sediment * p.depositionRate * n.2.1 ≤
            st.sediment * p.depositionRate * 1 :=
              mul_le_mul_of_nonneg_left hyb.2 (mul_nonneg h0 hdep0)
        _ = st.sediment * p.depositionRate := mul_one _
        _ ≤ st.sediment * 1 := mul_le_mul_of_nonneg_left hdep1 h0
        _ = st.sediment := mul_one _
      have hres := ih (i + 1)
        ⟨st.x + (p.friction * st.vx + n.1 * p.speed * res),
          st.y + (p.friction * st.vy + n.2.2 * p.speed * res), st.x, st.y,
          p.friction * st.vx + n.1 * p.speed * res,
          p.friction * st.vy + n.2.2 * p.speed * res,
          st.sediment + p.erosionRate * (1 - n.2.1) *
            min 1 ((i : ℝ) * p.iterationScale) -
            st.sediment * p.depositionRate * n.2.1,
          gridChange xV yV (1 / hmres) st.values st.xp st.yp
            (st.sediment * p.depositionRate * n.2.1 -
              p.erosionRate * (1 - n.2.1) * min 1 ((i : ℝ) * p.iterationScale))⟩
        (by dsimp only; linarith)
        (by dsimp only; push_cast; linarith)
      refine ⟨hres.1, le_trans hres.2 ?_⟩
      have : ((i + 1 + fuel : ℕ) : ℝ) = ((i + (fuel + 1) : ℕ) : ℝ) := by
        push_cast; ring
      rw [this]

/-- C5, amended: a droplet trace started with zero sediment keeps its
sediment in `[0, N * erosionRate]` after `N` loop iterations, provided
`erosionRate ≥ 0`, `depositionRate ∈ [0, 1]` and `iterationScale ≥ 0`. -/
theorem trace_sediment_amended (p : ErosionHydraulicParameters) (res : ℝ)
    (xV yV : ℕ) (hmres ox oy x y : ℝ) (vals : List ℝ) (N : ℕ)
    (hrate : 0 ≤ p.erosionRate) (hdep0 : 0 ≤ p.depositionRate)
    (hdep1 : p.depositionRate ≤ 1) (hit : 0 ≤ p.iterationScale) :
    0 ≤ (traceGo p res xV yV hmres ox oy 0 N ⟨x, y, x, y, 0, 0, 0, vals⟩).sediment ∧
      (traceGo p res xV yV hmres ox oy 0 N ⟨x, y, x, y, 0, 0, 0, vals⟩).sediment ≤
        N * p.erosionRate := by
  have h := traceGo_sediment_bounds p res xV yV hmres ox oy hrate hdep0 hdep1 hit
    N 0 ⟨x, y, x, y, 0, 0, 0, vals⟩ le_rfl (by norm_num)
  simpa using h

/-- Witness for the amended C5 at the default hydraulic parameters. -/
theorem trace_sediment_amended_witness :
    0 ≤ (traceGo defaultErosionHydraulicParameters 0.1 4 4 0.1 0 0 0 5
        ⟨0, 0, 0, 0, 0, 0, 0, []⟩).sediment ∧
      (traceGo defaultErosionHydraulicParameters 0.1 4 4 0.1 0 0 0 5
        ⟨0, 0, 0, 0, 0, 0, 0, []⟩).sediment ≤
        5 * defaultErosionHydraulicParameters.erosionRate :=
  trace_sediment_amended defaultErosionHydraulicParameters 0.1 4 4 0.1 0 0 0 0 [] 5
    (by norm_num [defaultErosionHydraulicParameters])
    (by norm_num [defaultErosionHydraulicParameters])
    (by norm_num [defaultErosionHydraulicParameters])
    (by norm_num [defaultErosionHydraulicParameters])

/-- Bilinear sample of the bump grid left of the trace start. -/
theorem c5_sample_left :
    gridSample 4 4 (1 / 1) 0 c5Hm.values (1.5 - 1) 1.5 = 0.25 := by
  have h1 : ⌊(1.5 - 1 : ℝ) * (1 / 1)⌋ = 0 := by norm_num
  have h2 : ⌊(1.5 : ℝ) * (1 / 1)⌋ = 1 := by norm_num
  simp only [gridSample, listGetI, c5Hm, h1, h2]
  simp
  norm_num

/-- Bilinear sample of the bump grid above the trace start. -/
theorem c5_sample_top :
    gridSample 4 4 (1 / 1) 0 c5Hm.values 1.5 (1.5 - 1) = 0.25 := by
  have h1 : ⌊(1.5 - 1 : ℝ) * (1 / 1)⌋ = 0 := by norm_num
  have h2 : ⌊(1.5 : ℝ) * (1 / 1)⌋ = 1 := by norm_num
  simp only [gridSample, listGetI, c5Hm, h1, h2]
  simp
  norm_num

/-- Bilinear sample of the bump grid right of the trace start. -/
theorem c5_sample_right :
    gridSample 4 4 (1 / 1) 0 c5Hm.values (1.5 + 1) 1.5 = 0 := by
  have h1 : ⌊(1.5 + 1 : ℝ) * (1 / 1)⌋ = 2 := by norm_num
  have h2 : ⌊(1.5 : ℝ) * (1 / 1)⌋ = 1 := by norm_num
  simp only [gridSample, listGetI, c5Hm, h1, h2]
  simp

/-- Bilinear sample of the bump grid below the trace start. -/
theorem c5_sample_bottom :
    gridSample 4 4 (1 / 1) 0 c5Hm.values 1.5 (1.5 + 1) = 0 := by
  have h1 : ⌊(1.5 + 1 : ℝ) * (1 / 1)⌋ = 2 := by norm_num
  have h2 : ⌊(1.5 : ℝ) * (1 / 1)⌋ = 1 := by norm_num
  simp only [gridSample, listGetI, c5Hm, h1, h2]
  simp

/-- The surface normal sampled at the trace start of the bump grid. -/
theorem c5_normal :
    sampleNormalRaw 4 4 1 c5Hm.values 1.5 1.5 =
      (1 / 2 / Real.sqrt (33 / 2), 4 / Real.sqrt (33 / 2),
        1 / 2 / Real.sqrt (33 / 2)) := by
  unfold sampleNormalRaw
  dsimp only
  rw [c5_sample_left, c5_sample_top, c5_sample_right, c5_sample_bottom]
  rw [show -((1 : ℝ) + 1) * ((0 : ℝ) - 0.25) = 1 / 2 from by norm_num,
    show -((1 : ℝ) + 1) * -((1 : ℝ) + 1) = 4 from by norm_num]
  rw [show (1 / 2 : ℝ) * (1 / 2) + 4 * 4 + 1 / 2 * (1 / 2) = 33 / 2 from by
    norm_num]
  rw [if_neg (by
    rw [Real.sqrt_eq_zero (by norm_num : (0 : ℝ) ≤ 33 / 2)]
    norm_num)]

/-- Depositing a zero delta leaves the bump grid unchanged. -/
theorem c5_change_zero :
    gridChange 4 4 (1 / 1) c5Hm.values 1.5 1.5 0 = c5Hm.values := by
  have h2 : ⌊(1.5 : ℝ) * (1 / 1)⌋ = 1 := by norm_num
  simp only [gridChange, c5Hm, h2]
  norm_num
  simp

/-- C5, counterexample: the trace parameters satisfy the claimed
hypotheses (`erosionRate ≥ 0`, `depositionRate ∈ [0, 1]`), yet after two
loop iterations on the bump grid the carried sediment of the droplet trace
is strictly negative — the negative `iterationScale` makes the erosion term
negative from the second iteration on. -/
theorem trace_sediment_cex :
    0 ≤ c5Params.erosionRate ∧ 0 ≤ c5Params.depositionRate ∧
      c5Params.depositionRate ≤ 1 ∧
      (hydraulicTrace c5Params 1 1.5 1.5 c5Hm ⟨0⟩).1.sediment < 0 := by
  have hsq : (0 : ℝ) < Real.sqrt (33 / 2) := Real.sqrt_pos.2 (by norm_num)
  have h4 : (4 : ℝ) < Real.sqrt (33 / 2) := by
    rw [show (4 : ℝ) = Real.sqrt 16 from
      (Real.sqrt_eq_iff_eq_sq (by norm_num) (by norm_num)).2 (by norm_num) |>.symm]
    exact Real.sqrt_lt_sqrt (by norm_num) (by norm_num)
  have hny1 : (4 : ℝ) / Real.sqrt (33 / 2) < 1 := (div_lt_one hsq).2 h4
  have hne : ((4 : ℝ) / Real.sqrt (33 / 2)) ≠ 1 := ne_of_lt hny1
  refine ⟨by norm_num [c5Params], by norm_num [c5Params],
    by norm_num [c5Params], ?_⟩
  unfold hydraulicTrace
  dsimp only
  rw [show c5Hm.xValues = 4 from rfl, show c5Hm.yValues = 4 from rfl,
    show c5Hm.resolution = 1 from rfl,
    show c5Params.radius = 0 from rfl,
    show ⌈c5Params.maxIterations⌉₊ = 1 + 1 from by
      rw [show c5Params.maxIterations = 2 from rfl]; norm_num]
  rw [show ((((⟨0⟩ : Random).getFloat).1 * 2 - 1) * 0 * 1 : ℝ) = 0 from by ring,
    show (((((⟨0⟩ : Random).getFloat).2.getFloat).1 * 2 - 1) * 0 * 1 : ℝ) = 0 from by
      ring]
  rw [traceGo]
  dsimp only
  rw [show (1.5 : ℝ) + 0 = 1.5 from by norm_num, c5_normal]
  dsimp only
  rw [if_neg hne]
  rw [show (↑(0 : ℕ) * c5Params.iterationScale : ℝ) = 0 from by norm_num,
    show min (1 : ℝ) 0 = 0 from by norm_num]
  rw [show (c5Params.erosionRate * (1 - 4 / Real.sqrt (33 / 2)) * 0 : ℝ) = 0 from by
      ring,
    show ((0 : ℝ) * c5Params.depositionRate * (4 / Real.sqrt (33 / 2))) = 0 from by
      ring]
  rw [show ((0 : ℝ) - 0) = 0 from by norm_num, c5_change_zero]
  rw [show (c5Params.friction * 0 + 1 / 2 / Real.sqrt (33 / 2) * c5Params.speed * 1 : ℝ)
      = 0 from by rw [show c5Params.speed = 0 from rfl]; ring]
  rw [traceGo]
  dsimp only
  rw [show (1.5 : ℝ) + 0 + 0 = 1.5 from by norm_num, c5_normal]
  dsimp only
  rw [if_neg hne]
  rw [show (↑(1 : ℕ) * c5Params.iterationScale : ℝ) = -1 from by
      rw [show c5Params.iterationScale = -1 from rfl]; norm_num,
    show min (1 : ℝ) (-1) = -1 from by norm_num]
  rw [traceGo]
  dsimp only
  rw [show c5Params.erosionRate = 1 from rfl,
    show c5Params.depositionRate = 0 from rfl]
  nlinarith [hny1]

/-- An indexed default read of a list bounded inside an interval containing
zero stays in the interval. -/
theorem getD_bounds {l : List ℝ} {lo hi : ℝ}
    (h : ∀ v ∈ l, lo ≤ v ∧ v ≤ hi) (h0 : lo ≤ 0) (h1 : 0 ≤ hi) (k : ℕ) :
    lo ≤ l.getD k 0 ∧ l.getD k 0 ≤ hi := by
  rcases h' : l[k]? with _ | v
  · rw [List.getD_eq_getElem?_getD, h']
    exact ⟨h0, h1⟩
  · rw [List.getD_eq_getElem?_getD, h']
    exact h v (List.getElem?_mem h')

/-- The running maximum recorded by the synthesis loop bounds every cell
and is non-negative. -/
theorem le_foldl_max (l : List ℝ) :
    (∀ v ∈ l, v ≤ l.foldl max 0) ∧ 0 ≤ l.foldl max 0 := by
  have key : ∀ (l : List ℝ) (a : ℝ),
      (∀ v ∈ l, v ≤ l.foldl max a) ∧ a ≤ l.foldl max a := by
    intro l
    induction l with
    | nil => exact fun a => ⟨fun v hv => absurd hv (List.not_mem_nil v), le_rfl⟩
    | cons x t ih =>
      intro a
      constructor
      · intro v hv
        rcases List.mem_cons.1 hv with rfl | hvt
        · exact le_trans (le_max_right a v) (ih (max a v)).2
        · exact (ih (max a x)).1 v hvt
      · exact le_trans (le_max_left a x) (ih (max a x)).2
  exact key l 0

/-- On the 1 × 1 world at resolution 1, the cone shape vanishes at every
grid cell: each cell sits at distance `√2 / 2` from the centre, so the cone
argument saturates at `π`. -/
theorem c4_shape_zero (power : ℝ) (x y : ℕ) (hx : x < 2) (hy : y < 2) :
    shapeConeSample 1 1 power ((x : ℕ) * (1 : ℝ)) ((y : ℕ) * (1 : ℝ)) = 0 := by
  have harg : ∀ u : ℕ, u < 2 →
      ((1 : ℝ) * 0.5 - (u : ℕ) * (1 : ℝ)) / 1 * (((1 : ℝ) * 0.5 - (u : ℕ) * (1 : ℝ)) / 1) =
        1 / 4 := by
    intro u hu
    interval_cases u <;> norm_num
  unfold shapeConeSample
  dsimp only
  rw [harg x hx, harg y hy]
  rw [show (1 / 4 : ℝ) + 1 / 4 = 1 / 2 from by norm_num]
  have hsqrt : (1 : ℝ) ≤ 2 * Real.sqrt (1 / 2) := by
    have h1 : (1 / 2 : ℝ) ≤ Real.sqrt (1 / 2) :=
      (Real.le_sqrt (by norm_num) (by norm_num)).2 (by norm_num)
    linarith
  rw [min_eq_left hsqrt, Real.one_rpow, mul_one, Real.cos_pi]
  norm_num

/-- On any terrain parameters describing the 1 × 1 world at resolution 1,
the synthesized height map is the all-zero 2 × 2 grid with `maxHeight`
zero. -/
theorem c4_stage1 (p : TerrainParameters) (rng : Random)
    (hw : p.width = 1) (hh : p.height = 1) (hr : p.resolution = 1) :
    (terrainCreateHeightMap p rng).1.values = [0, 0, 0, 0] ∧
      (terrainCreateHeightMap p rng).1.maxHeight = 0 ∧
      (terrainCreateHeightMap p rng).1.xValues = 2 ∧
      (terrainCreateHeightMap p rng).1.yValues = 2 ∧
      (terrainCreateHeightMap p rng).1.resolution = 1 := by
  unfold terrainCreateHeightMap
  rw [hw, hh, hr]
  rw [show ⌈(1 : ℝ) / 1⌉₊ + 1 = 2 from by norm_num]
  unfold HeightMap.make
  dsimp only
  have hcell : ∀ idx : ℕ, idx < 4 →
      heightCell p.heightMapParameters
        ((createNoisesGo 2 2 p.heightMapParameters.scaleFalloff
            p.heightMapParameters.octaves p.heightMapParameters.scale rng).1.zip
          (makeInfluences p.heightMapParameters.octaves
            p.heightMapParameters.influenceFalloff))
        (shapeConeSample 1 1 p.shapePower) 1 (idx % 2) (idx / 2) = 0 := by
    intro idx hidx
    unfold heightCell
    rw [c4_shape_zero p.shapePower (idx % 2) (idx / 2) (Nat.mod_lt idx (by norm_num))
      (Nat.div_lt_of_lt_mul (by omega))]
    rw [mul_zero]
  have hvals : (List.range (2 * 2)).map (fun idx =>
      heightCell p.heightMapParameters
        ((createNoisesGo 2 2 p.heightMapParameters.scaleFalloff
            p.heightMapParameters.octaves p.heightMapParameters.scale rng).1.zip
          (makeInfluences p.heightMapParameters.octaves
            p.heightMapParameters.influenceFalloff))
        (shapeConeSample 1 1 p.shapePower) 1 (idx % 2) (idx / 2)) = [0, 0, 0, 0] := by
    rw [show (2 * 2 : ℕ) = 4 from rfl, show List.range 4 = [0, 1, 2, 3] from rfl]
    rw [List.map_cons, List.map_cons, List.map_cons, List.map_cons, List.map_nil]
    rw [hcell 0 (by norm_num), hcell 1 (by norm_num), hcell 2 (by norm_num),
      hcell 3 (by norm_num)]
  refine ⟨hvals, ?_, rfl, rfl, rfl⟩
  rw [hvals]
  show max (max (max (max 0 0) 0) 0) 0 = 0
  norm_num

/-- The coastal pass keeps the structural fields of the height map. -/
theorem coastal_fields (p : ErosionCoastalParameters) (res : ℝ)
    (hm : HeightMap) (rng : Random) :
    (erosionCoastalApply p res hm rng).1.xValues = hm.xValues ∧
      (erosionCoastalApply p res hm rng).1.yValues = hm.yValues ∧
      (erosionCoastalApply p res hm rng).1.resolution = hm.resolution ∧
      (erosionCoastalApply p res hm rng).1.maxHeight = hm.maxHeight :=
  ⟨rfl, rfl, rfl, rfl⟩

/-- The volcano pass keeps the structural fields of the height map. -/
theorem volcano_fields (p : VolcanoesParameters) (hm : HeightMap)
    (rng : Random) :
    (volcanoesApply p hm rng).1.xValues = hm.xValues ∧
      (volcanoesApply p hm rng).1.yValues = hm.yValues ∧
      (volcanoesApply p hm rng).1.resolution = hm.resolution ∧
      (volcanoesApply p hm rng).1.maxHeight = hm.maxHeight :=
  ⟨rfl, rfl, rfl, rfl⟩

/-- The coastal pass leaves an all-zero 2 × 2 grid all-zero: a zero cell is
fixed by the power-law multiply whatever its threshold is. -/
theorem c4_coastal_zeros (p : ErosionCoastalParameters) (res : ℝ)
    (hm : HeightMap) (rng : Random) (hx : hm.xValues = 2) (hy : hm.yValues = 2)
    (hv : hm.values = [0, 0, 0, 0]) :
    (erosionCoastalApply p res hm rng).1.values = [0, 0, 0, 0] := by
  unfold erosionCoastalApply
  dsimp only
  rw [hx, hy, hv]
  rw [show (2 * 2 : ℕ) = 4 from rfl, show List.range 4 = [0, 1, 2, 3] from rfl]
  rw [List.map_cons, List.map_cons, List.map_cons, List.map_cons, List.map_nil]
  have hzero : ∀ t : ℝ, coastalCell p.power 0 t = 0 := by
    intro t
    unfold coastalCell
    split
    · exact zero_mul _
    · rfl
  have hget : ∀ k : ℕ, ([0, 0, 0, 0] : List ℝ).getD k 0 = 0 := by
    intro k
    have hb := getD_bounds
      (show ∀ v ∈ ([0, 0, 0, 0] : List ℝ), (0 : ℝ) ≤ v ∧ v ≤ 0 by
        intro v hv'; fin_cases hv' <;> norm_num) le_rfl le_rfl k
    linarith [hb.1, hb.2]
  rw [hget 0, hget 1, hget 2, hget 3, hzero, hzero, hzero, hzero]

/-- With the counterexample volcano parameters, every per-cell threshold is
at most `13/4` above the adaptive base. -/
theorem c4_volcano_threshold_le (w h : ℕ) (r : Random) (base : ℝ) (x y : ℕ) :
    volcanoCellThreshold c4Params.volcanoesParameters 1 (CubicNoise.make w h r).1
      base x y ≤ base + 13 / 4 := by
  unfold volcanoCellThreshold
  have hs := make_sample_range w h r
    ((x : ℝ) * 1 * c4Params.volcanoesParameters.volcanoThresholdScale)
    ((y : ℝ) * 1 * c4Params.volcanoesParameters.volcanoThresholdScale)
  rw [show c4Params.volcanoesParameters.volcanoThresholdAmplitude = 2 from rfl]
  nlinarith [hs.1, hs.2]

/-- With the counterexample volcano parameters (crater scale `-2`), the
volcano pass raises the zero cell 0 of the all-zero grid to at least
`7/4`. -/
theorem c4_volcano_raise (hm : HeightMap) (rng : Random)
    (hx : hm.xValues = 2) (hy : hm.yValues = 2) (hr : hm.resolution = 1)
    (hv : hm.values = [0, 0, 0, 0]) (hmx : hm.maxHeight = 0) :
    7 / 4 ≤ (volcanoesApply c4Params.volcanoesParameters hm rng).1.values.getD 0 0 := by
  unfold volcanoesApply
  dsimp only
  rw [hx, hy, hr, hmx, hv]
  simp only [Nat.cast_ofNat]
  rw [getD_range_map (2 * 2) _ 0 (by norm_num)]
  have hbase : max c4Params.volcanoesParameters.volcanoThreshold
      ((0 : ℝ) - c4Params.volcanoesParameters.volcanoMaxDepth *
        (1 / c4Params.volcanoesParameters.volcanoCraterScale)) = -5 := by
    rw [show c4Params.volcanoesParameters.volcanoThreshold = -100 from rfl,
      show c4Params.volcanoesParameters.volcanoMaxDepth = -10 from rfl,
      show c4Params.volcanoesParameters.volcanoCraterScale = -2 from rfl]
    rw [max_eq_right (by norm_num : (-100 : ℝ) ≤ 0 - -10 * (1 / -2))]
    norm_num
  rw [hbase]
  have ht := c4_volcano_threshold_le ⌈(2 : ℝ) * 1 *
      c4Params.volcanoesParameters.volcanoThresholdScale⌉₊
    ⌈(2 : ℝ) * 1 * c4Params.volcanoesParameters.volcanoThresholdScale⌉₊
    rng (-5) (0 % 2) (0 / 2)
  have hget : ([0, 0, 0, 0] : List ℝ).getD 0 0 = 0 := rfl
  rw [hget]
  unfold volcanoCell
  rw [if_pos (by linarith : (0 : ℝ) >
    volcanoCellThreshold c4Params.volcanoesParameters 1
      (CubicNoise.make ⌈(2 : ℝ) * 1 *
          c4Params.volcanoesParameters.volcanoThresholdScale⌉₊
        ⌈(2 : ℝ) * 1 * c4Params.volcanoesParameters.volcanoThresholdScale⌉₊
        rng).1 (-5) (0 % 2) (0 / 2))]
  rw [show c4Params.volcanoesParameters.volcanoCraterScale = -2 from rfl]
  set t := volcanoCellThreshold c4Params.volcanoesParameters 1
    (CubicNoise.make ⌈(2 : ℝ) * 1 *
        c4Params.volcanoesParameters.volcanoThresholdScale⌉₊
      ⌈(2 : ℝ) * 1 * c4Params.volcanoesParameters.volcanoThresholdScale⌉₊
      rng).1 (-5) (0 % 2) (0 / 2) with hht
  nlinarith [ht]

/-- With `dropsPerCell = 0` the hydraulic pass traces no droplet, and the
blur leaves the border cell 0 of a 2 × 2 grid unchanged; `maxHeight` is
untouched. -/
theorem c4_hydraulic_value (p : ErosionHydraulicParameters) (res : ℝ)
    (hm : HeightMap) (rng : Random) (hdrops : p.dropsPerCell = 0)
    (hx : hm.xValues = 2) (hy : hm.yValues = 2) :
    (hydraulicApply p res hm rng).1.values.getD 0 0 = hm.values.getD 0 0 ∧
      (hydraulicApply p res hm rng).1.maxHeight = hm.maxHeight := by
  unfold hydraulicApply
  dsimp only
  rw [hdrops]
  rw [show ((0 : ℝ) * ((hm.xValues : ℝ) - 1) * ((hm.yValues : ℝ) - 1)) = 0 from by
    ring]
  rw [show ⌈(0 : ℝ)⌉₊ = 0 from by norm_num]
  rw [show hydraulicDrops p res 0 hm rng = (hm, rng) from rfl]
  dsimp only
  constructor
  · unfold gridBlur
    rw [hx, hy]
    rw [getD_range_map (2 * 2) _ 0 (by norm_num)]
    rw [if_neg (by norm_num)]
  · rfl

/-- C4, counterexample: at seed 1 with the counterexample parameters (a
1 × 1 world, no hydraulic drops, volcano crater scale `-2`), the recorded
`maxHeight` is 0 while cell 0 of the final elevation grid is at least
`7/4` — the volcano pass raised it above the synthesis maximum. -/
theorem maxHeight_post_cex :
    (runPipeline c4Params 1).1.maxHeight <
      (runPipeline c4Params 1).1.values.getD 0 0 := by
  unfold runPipeline terrainGenerate
  dsimp only
  obtain ⟨hv1, hm1, hx1, hy1, hr1⟩ := c4_stage1 c4Params ⟨1 % 2 ^ 32⟩ rfl rfl rfl
  set s1 := terrainCreateHeightMap c4Params ⟨1 % 2 ^ 32⟩ with hs1
  obtain ⟨cx, cy, cr, cm⟩ := coastal_fields c4Params.erosionCoastalParameters
    c4Params.resolution s1.1 s1.2
  have hv2 := c4_coastal_zeros c4Params.erosionCoastalParameters
    c4Params.resolution s1.1 s1.2 hx1 hy1 hv1
  set s2 := erosionCoastalApply c4Params.erosionCoastalParameters
    c4Params.resolution s1.1 s1.2 with hs2
  obtain ⟨vx, vy, vr, vm⟩ := volcano_fields c4Params.volcanoesParameters s2.1 s2.2
  have hraise := c4_volcano_raise s2.1 s2.2 (cx.trans hx1) (cy.trans hy1)
    (cr.trans hr1) hv2 (cm.trans hm1)
  set s3 := volcanoesApply c4Params.volcanoesParameters s2.1 s2.2 with hs3
  have hhydro := c4_hydraulic_value c4Params.erosionHydraulicParameters
    c4Params.resolution s3.1 s3.2 rfl (vx.trans (cx.trans hx1))
    (vy.trans (cy.trans hy1))
  rw [hhydro.1, hhydro.2]
  rw [vm, cm, hm1]
  linarith [hraise]

/-- The coastal pass maps cells in `[0, M]` to cells in `[0, M]` when the
compression power is non-negative: below a positive threshold the cell is
multiplied by a factor in `[0, 1]`, otherwise it is unchanged. -/
theorem coastal_preserves (p : ErosionCoastalParameters) (res : ℝ)
    (hm : HeightMap) (rng : Random) (M : ℝ) (hpow : 0 ≤ p.power) (hM : 0 ≤ M)
    (h : ∀ v ∈ hm.values, 0 ≤ v ∧ v ≤ M) :
    ∀ v ∈ (erosionCoastalApply p res hm rng).1.values, 0 ≤ v ∧ v ≤ M := by
  intro v hv
  unfold erosionCoastalApply at hv
  dsimp only at hv
  rw [List.mem_map] at hv
  obtain ⟨idx, _, rfl⟩ := hv
  have hx := getD_bounds h le_rfl hM idx
  set x := hm.values.getD idx 0 with hxv
  unfold coastalCell
  split
  case isTrue hlt =>
    have ht0 : 0 < coastalThreshold p res _ (idx % hm.xValues) (idx / hm.xValues) :=
      lt_of_le_of_lt hx.1 hlt
    have hr0 : 0 ≤ x / _ := div_nonneg hx.1 (le_of_lt ht0)
    have hr1 : x / _ ≤ 1 := (div_le_one ht0).2 (le_of_lt hlt)
    have hp0 : 0 ≤ (x / _) ^ p.power := Real.rpow_nonneg hr0 _
    have hp1 : (x / _) ^ p.power ≤ 1 := Real.rpow_le_one hr0 hr1 hpow
    constructor
    · exact mul_nonneg hx.1 hp0
    · calc x * (x / _) ^ p.power ≤ x * 1 :=
          mul_le_mul_of_nonneg_left hp1 hx.1
      _ = x := mul_one _
      _ ≤ M := hx.2
  case isFalse => exact hx
/-- The volcano pass never raises a cell above `M` when
`1 + craterScale ≥ 0`: cells above the threshold only lose height. -/
theorem volcano_preserves (p : VolcanoesParameters) (hm : HeightMap)
    (rng : Random) (M : ℝ) (hcs : -1 ≤ p.volcanoCraterScale) (hM : 0 ≤ M)
    (h : ∀ v ∈ hm.values, v ≤ M) :
    ∀ v ∈ (volcanoesApply p hm rng).1.values, v ≤ M := by
  intro v hv
  unfold volcanoesApply at hv
  dsimp only at hv
  rw [List.mem_map] at hv
  obtain ⟨idx, _, rfl⟩ := hv
  have hx : hm.values.getD idx 0 ≤ M := by
    rcases h' : hm.values[idx]? with _ | w
    · rw [List.getD_eq_getElem?_getD, h']
      exact hM
    · rw [List.getD_eq_getElem?_getD, h']
      exact h w (List.getElem?_mem h')
  set x := hm.values.getD idx 0 with hxv
  have hcell : ∀ t : ℝ, volcanoCell p.volcanoCraterScale x t ≤ M := by
    intro t
    unfold volcanoCell
    split
    case isTrue hgt =>
      nlinarith [mul_nonneg (show (0 : ℝ) ≤ x - t by linarith)
        (show (0 : ℝ) ≤ 1 + p.volcanoCraterScale by linarith)]
    case isFalse => exact hx
  exact hcell _

/-- A bilinear deposit of a non-positive delta never raises a cell above
`M`. -/
theorem gridChange_le (W H : ℕ) (scale : ℝ) (vals : List ℝ) (x y delta M : ℝ)
    (hdelta : delta ≤ 0) (hM : 0 ≤ M) (h : ∀ v ∈ vals, v ≤ M) :
    ∀ v ∈ gridChange W H scale vals x y delta, v ≤ M := by
  have hstep : ∀ (l : List ℝ) (k : ℕ) (w : ℝ), 0 ≤ w → (∀ v ∈ l, v ≤ M) →
      ∀ v ∈ l.set k (l.getD k 0 + w * delta), v ≤ M := by
    intro l k w hw hl v hv
    rcases List.mem_or_eq_of_mem_set hv with hmem | rfl
    · exact hl v hmem
    · have hg : l.getD k 0 ≤ M := by
        rcases h' : l[k]? with _ | u
        · rw [List.getD_eq_getElem?_getD, h']; exact hM
        · rw [List.getD_eq_getElem?_getD, h']; exact hl u (List.getElem?_mem h')
      nlinarith
  unfold gridChange
  split
  · exact h
  · dsimp only
    split
    · exact h
    ·
      have hfx0 : (0 : ℝ) ≤ x * scale - ⌊x * scale⌋ :=
        sub_nonneg.2 (Int.floor_le _)
      have hfx1 : x * scale - (⌊x * scale⌋ : ℝ) ≤ 1 := by
        have := Int.lt_floor_add_one (x * scale); linarith
      have hfy0 : (0 : ℝ) ≤ y * scale - ⌊y * scale⌋ :=
        sub_nonneg.2 (Int.floor_le _)
      have hfy1 : y * scale - (⌊y * scale⌋ : ℝ) ≤ 1 := by
        have := Int.lt_floor_add_one (y * scale); linarith
      apply hstep _ _ _ (by nlinarith)
      apply hstep _ _ _ (by nlinarith)
      apply hstep _ _ _ (by nlinarith)
      apply hstep _ _ _ (by nlinarith)
      exact h

/-- With deposition disabled and a non-negative erosion rate and iteration
scale, the droplet trace only removes material: no cell ever exceeds
`M`. -/
theorem traceGo_le (p : ErosionHydraulicParameters) (res : ℝ) (xV yV : ℕ)
    (hmres ox oy : ℝ) (M : ℝ) (hrate : 0 ≤ p.erosionRate)
    (hdep : p.depositionRate = 0) (hit : 0 ≤ p.iterationScale) (hM : 0 ≤ M) :
    ∀ (fuel i : ℕ) (st : TraceState), (∀ v ∈ st.values, v ≤ M) →
      ∀ v ∈ (traceGo p res xV yV hmres ox oy i fuel st).values, v ≤ M := by
  intro fuel
  induction fuel with
  | zero => intro i st h; simpa [traceGo] using h
  | succ fuel ih =>
    intro i st h
    rw [traceGo]
    dsimp only
    set n := sampleNormalRaw xV yV hmres st.values (st.x + ox) (st.y + oy) with hn
    by_cases hny : n.2.1 = 1
    · rw [if_pos hny]
      exact h
    · rw [if_neg hny]
      apply ih
      dsimp only
      have hyb := sampleNormal_y_mem xV yV hmres st.values (st.x + ox) (st.y + oy)
      rw [← hn] at hyb
      have hmin0 : 0 ≤ min 1 ((i : ℝ) * p.iterationScale) :=
        le_min zero_le_one (mul_nonneg (Nat.cast_nonneg i) hit)
      have hdelta : st.sediment * p.depositionRate * n.2.1 -
          p.erosionRate * (1 - n.2.1) * min 1 ((i : ℝ) * p.iterationScale) ≤ 0 := by
        rw [hdep]
        have : 0 ≤ p.erosionRate * (1 - n.2.1) *
            min 1 ((i : ℝ) * p.iterationScale) :=
          mul_nonneg (mul_nonneg hrate (by linarith [hyb.2])) hmin0
        nlinarith
      exact gridChange_le xV yV (1 / hmres) st.values st.xp st.yp _ M hdelta hM h

/-- The droplet loop preserves the cell bound and the structural fields. -/
theorem hydraulicDrops_le (p : ErosionHydraulicParameters) (res : ℝ) (M : ℝ)
    (hrate : 0 ≤ p.erosionRate) (hdep : p.depositionRate = 0)
    (hit : 0 ≤ p.iterationScale) (hM : 0 ≤ M) :
    ∀ (n : ℕ) (hm : HeightMap) (rng : Random), (∀ v ∈ hm.values, v ≤ M) →
      (∀ v ∈ (hydraulicDrops p res n hm rng).1.values, v ≤ M) ∧
        (hydraulicDrops p res n hm rng).1.xValues = hm.xValues ∧
        (hydraulicDrops p res n hm rng).1.yValues = hm.yValues ∧
        (hydraulicDrops p res n hm rng).1.maxHeight = hm.maxHeight := by
  intro n
  induction n with
  | zero => intro hm rng h; exact ⟨h, rfl, rfl, rfl⟩
  | succ n ih =>
    intro hm rng h
    rw [hydraulicDrops]
    have htr : ∀ v ∈ (hydraulicTrace p res
        ((rng.getFloat.1) * hm.xValues * res)
        ((rng.getFloat.2.getFloat.1) * hm.yValues * res) hm
        rng.getFloat.2.getFloat.2).1.values, v ≤ M := by
      unfold hydraulicTrace
      dsimp only
      exact traceGo_le p res hm.xValues hm.yValues hm.resolution _ _ M
        hrate hdep hit hM _ 0 _ h
    exact ih _ _ htr

/-- The blur pass never raises a cell above `M`: interior cells become a
convex combination of old cells, border cells are kept. -/
theorem gridBlur_le (W H : ℕ) (vals : List ℝ) (M : ℝ) (hM : 0 ≤ M)
    (h : ∀ v ∈ vals, v ≤ M) : ∀ v ∈ gridBlur W H vals, v ≤ M := by
  intro v hv
  unfold gridBlur at hv
  rw [List.mem_map] at hv
  obtain ⟨idx, _, rfl⟩ := hv
  have hg : ∀ k : ℕ, vals.getD k 0 ≤ M := by
    intro k
    rcases h' : vals[k]? with _ | u
    · rw [List.getD_eq_getElem?_getD, h']; exact hM
    · rw [List.getD_eq_getElem?_getD, h']; exact h u (List.getElem?_mem h')
  dsimp only
  split
  · unfold blurCell
    have h1 := hg (idx % W - 1 + idx / W * W)
    have h2 := hg (idx % W + (idx / W - 1) * W)
    have h3 := hg (idx % W + 1 + idx / W * W)
    have h4 := hg (idx % W + (idx / W + 1) * W)
    have h5 := hg (idx % W - 1 + (idx / W - 1) * W)
    have h6 := hg (idx % W + 1 + (idx / W - 1) * W)
    have h7 := hg (idx % W + 1 + (idx / W + 1) * W)
    have h8 := hg (idx % W - 1 + (idx / W + 1) * W)
    have h9 := hg (idx % W + idx / W * W)
    linarith
  · exact hg idx

/-- C4, amended: provided the coastal power is non-negative, the volcano
crater scale is at least `-1`, the hydraulic pass only erodes
(`erosionRate ≥ 0`, `iterationScale ≥ 0`, `depositionRate = 0`), and the
synthesized cells are non-negative, the `maxHeight` recorded at synthesis
bounds every cell of the final elevation grid.  (The counterexample shows
the bound fails for volcano crater scales below `-1`; hydraulic deposition
can likewise raise cells, so it is disabled.) -/
theorem maxHeight_bounds_amended (p : TerrainParameters) (seed : ℕ)
    (hpow : 0 ≤ p.erosionCoastalParameters.power)
    (hcs : -1 ≤ p.volcanoesParameters.volcanoCraterScale)
    (hrate : 0 ≤ p.erosionHydraulicParameters.erosionRate)
    (hdep : p.erosionHydraulicParameters.depositionRate = 0)
    (hit : 0 ≤ p.erosionHydraulicParameters.iterationScale)
    (hnn : ∀ v ∈ (terrainCreateHeightMap p ⟨seed % 2 ^ 32⟩).1.values, 0 ≤ v) :
    ∀ i : ℕ, (runPipeline p seed).1.values.getD i 0 ≤
      (terrainCreateHeightMap p ⟨seed % 2 ^ 32⟩).1.maxHeight := by
  intro i
  set s1 := terrainCreateHeightMap p ⟨seed % 2 ^ 32⟩ with hs1
  set M := s1.1.maxHeight with hM
  have hfold : s1.1.maxHeight = s1.1.values.foldl max 0 := rfl
  have hM0 : 0 ≤ M := by rw [hM, hfold]; exact (le_foldl_max _).2
  have hub : ∀ v ∈ s1.1.values, v ≤ M := by
    rw [hM, hfold]; exact (le_foldl_max _).1
  have h1 : ∀ v ∈ s1.1.values, 0 ≤ v ∧ v ≤ M :=
    fun v hv => ⟨hnn v hv, hub v hv⟩
  have h2 := coastal_preserves p.erosionCoastalParameters p.resolution s1.1 s1.2
    M hpow hM0 h1
  set s2 := erosionCoastalApply p.erosionCoastalParameters p.resolution s1.1 s1.2
    with hs2
  have h3 := volcano_preserves p.volcanoesParameters s2.1 s2.2 M hcs hM0
    (fun v hv => (h2 v hv).2)
  set s3 := volcanoesApply p.volcanoesParameters s2.1 s2.2 with hs3
  have h4 := hydraulicDrops_le p.erosionHydraulicParameters p.resolution M
    hrate hdep hit hM0
    ⌈p.erosionHydraulicParameters.dropsPerCell * ((s3.1.xValues : ℝ) - 1) *
      ((s3.1.yValues : ℝ) - 1)⌉₊ s3.1 s3.2 h3
  have h5 := gridBlur_le (hydraulicDrops p.erosionHydraulicParameters p.resolution
      ⌈p.erosionHydraulicParameters.dropsPerCell * ((s3.1.xValues : ℝ) - 1) *
        ((s3.1.yValues : ℝ) - 1)⌉₊ s3.1 s3.2).1.xValues
    (hydraulicDrops p.erosionHydraulicParameters p.resolution
      ⌈p.erosionHydraulicParameters.dropsPerCell * ((s3.1.xValues : ℝ) - 1) *
        ((s3.1.yValues : ℝ) - 1)⌉₊ s3.1 s3.2).1.yValues
    (hydraulicDrops p.erosionHydraulicParameters p.resolution
      ⌈p.erosionHydraulicParameters.dropsPerCell * ((s3.1.xValues : ℝ) - 1) *
        ((s3.1.yValues : ℝ) - 1)⌉₊ s3.1 s3.2).1.values M hM0 h4.1
  show (runPipeline p seed).1.values.getD i 0 ≤ M
  have hfinal : (runPipeline p seed).1.values =
      gridBlur (hydraulicDrops p.erosionHydraulicParameters p.resolution
          ⌈p.erosionHydraulicParameters.dropsPerCell * ((s3.1.xValues : ℝ) - 1) *
            ((s3.1.yValues : ℝ) - 1)⌉₊ s3.1 s3.2).1.xValues
        (hydraulicDrops p.erosionHydraulicParameters p.resolution
          ⌈p.erosionHydraulicParameters.dropsPerCell * ((s3.1.xValues : ℝ) - 1) *
            ((s3.1.yValues : ℝ) - 1)⌉₊ s3.1 s3.2).1.yValues
        (hydraulicDrops p.erosionHydraulicParameters p.resolution
          ⌈p.erosionHydraulicParameters.dropsPerCell * ((s3.1.xValues : ℝ) - 1) *
            ((s3.1.yValues : ℝ) - 1)⌉₊ s3.1 s3.2).1.values := rfl
  rw [hfinal]
  rcases h' : (gridBlur _ _ _)[i]? with _ | u
  · rw [List.getD_eq_getElem?_getD, h']
    exact hM0
  · rw [List.getD_eq_getElem?_getD, h']
    exact h5 u (List.getElem?_mem h')

/-- Witness for the amended C4 on the 1 × 1 world with deposition
disabled. -/
theorem maxHeight_bounds_amended_witness :
    (runPipeline c4GoodParams 1).1.values.getD 0 0 ≤
      (terrainCreateHeightMap c4GoodParams ⟨1 % 2 ^ 32⟩).1.maxHeight :=
  maxHeight_bounds_amended c4GoodParams 1
    (by norm_num [c4GoodParams, defaultErosionCoastalParameters])
    (by norm_num [c4GoodParams, defaultVolcanoesParameters])
    (by norm_num [c4GoodParams, defaultErosionHydraulicParameters])
    rfl
    (by norm_num [c4GoodParams, defaultErosionHydraulicParameters])
    (by
      intro v hv
      rw [(c4_stage1 c4GoodParams ⟨1 % 2 ^ 32⟩ rfl rfl rfl).1] at hv
      fin_cases hv <;> norm_num) 0

/-- C7: for every world position and every real altitude the computed
fertility context has `food ∈ [0, 1]` and `moisture ∈ [0, 1]`, with
`fertility` aliasing `food`; in the real-number model no field can be
NaN. -/
theorem computeContext_ranges (x z altitude : ℝ) :
    0 ≤ (computeContext x z altitude).food ∧
      (computeContext x z altitude).food ≤ 1 ∧
      0 ≤ (computeContext x z altitude).moisture ∧
      (computeContext x z altitude).moisture ≤ 1 ∧
      (computeContext x z altitude).fertility = (computeContext x z altitude).food := by
  have hn1 : -(2 : ℝ) ≤ simpleNoise2D x z := by
    unfold simpleNoise2D
    have h1 := Real.neg_one_le_sin (x * 0.11 + z * 0.07)
    have h2 := Real.neg_one_le_sin (x * 0.05 - z * 0.13)
    linarith
  have hn2 : simpleNoise2D x z ≤ 2 := by
    unfold simpleNoise2D
    have h1 := Real.sin_le_one (x * 0.11 + z * 0.07)
    have h2 := Real.sin_le_one (x * 0.05 - z * 0.13)
    linarith
  refine ⟨?_, ?_, ?_, ?_, rfl⟩
  · exact le_min (le_max_right _ 0) zero_le_one
  · exact min_le_right _ 1
  · show 0 ≤ (simpleNoise2D x z + 2) / 4
    apply div_nonneg (by linarith) (by norm_num)
  · show (simpleNoise2D x z + 2) / 4 ≤ 1
    rw [div_le_one (by norm_num)]
    linarith

/-- C6: below the arid fertility breakpoint `0.35` the placement rule of
`addRandomPlant` selects the palm exactly when the uniform draw is below
`0.6` and the bush otherwise, so the palm region of the unit interval is
exactly `[0, 0.6)` and has measure `0.6`. -/
theorem arid_palm_selection (food : ℝ) (hfood : food < 0.35) :
    (∀ r : ℝ, (choosePlant food r = PlantKind.palm ↔ r < 0.6) ∧
        (0.6 ≤ r → choosePlant food r = PlantKind.bush)) ∧
      {r : ℝ | r ∈ Set.Ico (0 : ℝ) 1 ∧ choosePlant food r = PlantKind.palm} =
        Set.Ico (0 : ℝ) 0.6 ∧
      MeasureTheory.volume
          {r : ℝ | r ∈ Set.Ico (0 : ℝ) 1 ∧ choosePlant food r = PlantKind.palm} =
        ENNReal.ofReal 0.6 := by
  have hsel : ∀ r : ℝ, choosePlant food r = if r < 0.6 then PlantKind.palm
      else PlantKind.bush := by
    intro r
    unfold choosePlant
    rw [if_pos hfood]
  have hpt : ∀ r : ℝ, (choosePlant food r = PlantKind.palm ↔ r < 0.6) ∧
      (0.6 ≤ r → choosePlant food r = PlantKind.bush) := by
    intro r
    rw [hsel r]
    by_cases hr : r < 0.6
    · rw [if_pos hr]
      exact ⟨⟨fun _ => hr, fun _ => rfl⟩, fun hge => absurd hr (not_lt.2 hge)⟩
    · rw [if_neg hr]
      exact ⟨⟨fun hh => PlantKind.noConfusion hh, fun hh => absurd hh hr⟩, fun _ => rfl⟩
  have hset : {r : ℝ | r ∈ Set.Ico (0 : ℝ) 1 ∧ choosePlant food r = PlantKind.palm} =
      Set.Ico (0 : ℝ) 0.6 := by
    ext r
    simp only [Set.mem_setOf_eq, Set.mem_Ico]
    constructor
    · rintro ⟨⟨h0, _⟩, hp⟩
      exact ⟨h0, (hpt r).1.1 hp⟩
    · rintro ⟨h0, h6⟩
      exact ⟨⟨h0, by linarith⟩, (hpt r).1.2 h6⟩
  refine ⟨hpt, hset, ?_⟩
  rw [hset, Real.volume_Ico]
  norm_num

/-- Witness for C6 in the arid tier at `food = 0.2`. -/
theorem arid_palm_selection_witness :
    ((0.2 : ℝ) < 0.35) ∧
      ((∀ r : ℝ, (choosePlant 0.2 r = PlantKind.palm ↔ r < 0.6) ∧
          (0.6 ≤ r → choosePlant 0.2 r = PlantKind.bush)) ∧
        {r : ℝ | r ∈ Set.Ico (0 : ℝ) 1 ∧ choosePlant 0.2 r = PlantKind.palm} =
          Set.Ico (0 : ℝ) 0.6 ∧
        MeasureTheory.volume
            {r : ℝ | r ∈ Set.Ico (0 : ℝ) 1 ∧ choosePlant 0.2 r = PlantKind.palm} =
          ENNReal.ofReal 0.6) :=
  ⟨by norm_num, arid_palm_selection 0.2 (by norm_num)⟩

/-- C8: with a positive sampling scale, `GridSampler.sample` returns the
standard bilinear interpolation of the four surrounding cells for every
coordinate inside the grid, and the configured default value for every
coordinate outside it (negative, or at or beyond the upper edges). -/
theorem gridSample_spec (W H : ℕ) (scale dflt : ℝ) (vals : List ℝ) (x y : ℝ) :
    (0 ≤ x → 0 ≤ y → x * scale < (W : ℝ) - 1 → y * scale < (H : ℝ) - 1 →
        gridSample W H scale dflt vals x y =
          bilinearSpec W vals (x * scale) (y * scale)) ∧
      ((x < 0 ∨ y < 0 ∨ (W : ℝ) - 1 ≤ x * scale ∨ (H : ℝ) - 1 ≤ y * scale) →
        gridSample W H scale dflt vals x y = dflt) := by
  constructor
  · intro hx hy hxW hyH
    unfold gridSample bilinearSpec
    rw [if_neg (by push_neg; exact ⟨not_lt.1 (not_lt.2 hx), not_lt.1 (not_lt.2 hy)⟩)]
    rw [if_neg ?hguard]
    case hguard =>
      push_neg
      constructor
      · have : (⌊x * scale⌋ : ℝ) < (W : ℝ) - 1 := lt_of_le_of_lt (Int.floor_le _) hxW
        have h2 : ⌊x * scale⌋ < (W : ℤ) - 1 := by exact_mod_cast (by push_cast; linarith :
          (⌊x * scale⌋ : ℝ) < ((W : ℤ) : ℝ) - 1)
        exact h2
      · have : (⌊y * scale⌋ : ℝ) < (H : ℝ) - 1 := lt_of_le_of_lt (Int.floor_le _) hyH
        have h2 : ⌊y * scale⌋ < (H : ℤ) - 1 := by exact_mod_cast (by push_cast; linarith :
          (⌊y * scale⌋ : ℝ) < ((H : ℤ) : ℝ) - 1)
        exact h2
    ring
  · intro hout
    unfold gridSample
    rcases hout with hx | hy | hxW | hyH
    · rw [if_pos (Or.inl hx)]
    · rw [if_pos (Or.inr hy)]
    · by_cases hneg : x < 0 ∨ y < 0
      · rw [if_pos hneg]
      · rw [if_neg hneg, if_pos]
        left
        rw [Int.le_floor]
        push_cast
        linarith
    · by_cases hneg : x < 0 ∨ y < 0
      · rw [if_pos hneg]
      · rw [if_neg hneg, if_pos]
        right
        rw [Int.le_floor]
        push_cast
        linarith

/-- Witness for C8 on a concrete 2 × 2 grid at scale 1: one inside sample
and one sample beyond the upper edge. -/
theorem gridSample_spec_witness :
    gridSample 2 2 1 7 [1, 2, 3, 4] 0.25 0.25 =
        bilinearSpec 2 [1, 2, 3, 4] (0.25 * 1) (0.25 * 1) ∧
      gridSample 2 2 1 7 [1, 2, 3, 4] 3 0.25 = 7 :=
  ⟨(gridSample_spec 2 2 1 7 [1, 2, 3, 4] 0.25 0.25).1 (by norm_num) (by norm_num)
      (by norm_num) (by norm_num),
    (gridSample_spec 2 2 1 7 [1, 2, 3, 4] 3 0.25).2
      (Or.inr (Or.inr (Or.inl (by norm_num))))⟩

end Island
